import Mathlib

/-!
Verification development for the LaunchBox import/matching pipeline
(`LaunchboxProvider.cpp`): a shallow embedding of the registry parser,
the platform catalog parser (game and additional-application records,
canonical-path deduplication, field merging) and the asset matcher,
together with theorems about the properties of these components.

Qt containers and strings are modelled as follows: `QString` is `String`
(a list of characters; Qt UTF-16 index arithmetic coincides with
character indices on the inputs considered here), `HashMap`/
`std::unordered_map` is an association list whose iteration order is an
explicit list order, `std::vector` is a list, and `float` is `Rat`
(the comparisons performed by the code are exact on the decimal literals
involved, so rationals are a faithful model).  Filesystem queries
(`QFileInfo::exists`, `canonicalFilePath`) are an explicit oracle `FS`.
-/

/-! ## Association list helpers (model of HashMap / std::unordered_map) -/

/-- Lookup in an association list: the value of the first pair whose key
matches, the model of `HashMap::find` / `count` / `at`. -/
def alookup {α β : Type} [DecidableEq α] : List (α × β) → α → Option β
  | [], _ => none
  | p :: l, k => if p.1 = k then some p.2 else alookup l k

/-- Model of `emplace` on `std::unordered_map`: inserts only when the key
is not present; an existing mapping is kept unchanged. -/
def aemplace {α β : Type} [DecidableEq α] (l : List (α × β)) (k : α) (v : β) :
    List (α × β) :=
  if (alookup l k).isSome then l else (k, v) :: l

/-- Model of `map.at(k)` used at call sites where the key is known to be
present; the default is irrelevant to every theorem below. -/
def agetD {α β : Type} [DecidableEq α] (l : List (α × β)) (k : α) (d : β) : β :=
  (alookup l k).getD d

/-- Replace the value stored under a key (model of assigning through
`map.at(k)`); leaves the list unchanged when the key is absent. -/
def aupdate {α β : Type} [DecidableEq α] (l : List (α × β)) (k : α) (f : β → β) :
    List (α × β) :=
  l.map (fun p => if p.1 = k then (p.1, f p.2) else p)

/-- Insert-or-replace (model of `map[k] = v` style assignment). -/
def aset {α β : Type} [DecidableEq α] (l : List (α × β)) (k : α) (v : β) :
    List (α × β) :=
  if (alookup l k).isSome then aupdate l k (fun _ => v) else (k, v) :: l

/-! ## String helpers (models of the Qt string functions used) -/

/-- Model of `QString::left(n)`: the first `n` characters; a negative `n`
or an `n` not smaller than the length yields the whole string. -/
def qleft (s : String) (n : Int) : String :=
  if n < 0 ∨ (s.length : Int) ≤ n then s else String.mk (s.data.take n.toNat)

/-- Model of `QString::lastIndexOf(ch, from)`: the largest character index
`i ≤ from` (a negative `from` counts from the end) at which `ch` occurs,
`-1` when there is none. -/
def qLastIndexOf (s : String) (c : Char) (fromIdx : Int) : Int :=
  let start : Int := if fromIdx < 0 then fromIdx + (s.length : Int) else fromIdx
  (List.range s.length).foldl
    (fun (acc : Int) (i : Nat) =>
      if decide ((i : Int) ≤ start) && (s.data.get? i == some c) then (i : Int)
      else acc)
    (-1)

/-- Model of `QStringList::removeDuplicates`: keeps the first occurrence
of every element. -/
def removeDuplicates (l : List String) : List String :=
  l.foldl (fun acc a => if a ∈ acc then acc else acc ++ [a]) []

/-- Model of `QString::trimmed`: remove leading and trailing
whitespace. -/
def qtrim (s : String) : String :=
  String.mk (((s.data.dropWhile Char.isWhitespace).reverse.dropWhile Char.isWhitespace).reverse)

/-- Model of `QString::endsWith`. -/
def qendsWith (s suffix : String) : Bool :=
  suffix.data.isSuffixOf s.data

/-- Replace every non-overlapping occurrence of `pat` from left to right,
continuing after each replacement; the fuel argument (instantiated with
the input length, which bounds the number of steps) keeps the recursion
structural. -/
def replaceAux (pat rep : List Char) : Nat → List Char → List Char
  | _, [] => []
  | 0, l => l
  | Nat.succ fuel, c :: rest =>
      if pat.isPrefixOf (c :: rest) then
        rep ++ replaceAux pat rep fuel (List.drop (pat.length - 1) rest)
      else c :: replaceAux pat rep fuel rest

/-- Model of `QString::replace(before, after)` for a non-empty search
pattern (the only use has the pattern " - "). -/
def qreplace (s pat rep : String) : String :=
  if pat.data = [] then s
  else String.mk (replaceAux pat.data rep.data s.data.length s.data)

/-- Split a character list at every separator, keeping empty parts
(the behaviour of `QString::split` with `KeepEmptyParts`). -/
def splitChars (p : Char → Bool) : List Char → List (List Char)
  | [] => [[]]
  | c :: rest =>
      match splitChars p rest with
      | [] => [[]]
      | cur :: parts => if p c then [] :: cur :: parts else (c :: cur) :: parts

/-- Characters replaced by `_` when escaping a title for filesystem-safe
matching (the character class of the regular expression in
`build_escaped_title_map`). -/
def invalidTitleChars : List Char := ['<', '>', ':', '"', '/', '\\', '|', '?', '*', '\'']

/-- Escape a title by replacing every filesystem-unsafe character with an
underscore (the body of the loop in `build_escaped_title_map`). -/
def escapeTitle (t : String) : String :=
  String.mk (t.data.map (fun c => if c ∈ invalidTitleChars then '_' else c))

/-- The file name portion of a path: everything after the last slash. -/
def fileNameOf (p : String) : String :=
  String.mk ((p.data.reverse.takeWhile (fun c => c ≠ '/')).reverse)

/-- Model of `QFileInfo::completeBaseName`: the file name with the last
dot and everything after it removed (the whole name when it has no dot). -/
def completeBaseName (p : String) : String :=
  let cs := (fileNameOf p).data
  if '.' ∈ cs then String.mk (((cs.reverse.dropWhile (fun c => c ≠ '.')).drop 1).reverse)
  else String.mk cs

/-- The containing directory of a path (model of
`QFileInfo::absolutePath` on the already-absolute emulator path):
everything before the last slash. -/
def dirOf (p : String) : String :=
  String.mk ((p.data.reverse.dropWhile (fun c => c ≠ '/')).drop 1 |>.reverse)

/-- Digit-list to number conversion used by the numeric parsers. -/
def digitsVal (l : List Char) : Nat :=
  l.foldl (fun a c => a * 10 + (c.toNat - 48)) 0

/-- Model of `QString::toFloat` (with its `ok` flag as `Option`),
restricted to the plain decimal forms exercised by the catalog files:
an optional sign, digits, and an optional fractional part.  The result
is an exact rational; the float comparisons in the source are exact on
these values. -/
def toFloat (s : String) : Option Rat :=
  let cs := s.data
  let sgn : Rat := if cs.take 1 = ['-'] then -1 else 1
  let cs2 := if cs.take 1 = ['-'] ∨ cs.take 1 = ['+'] then cs.drop 1 else cs
  let ip := cs2.takeWhile (fun c => c ≠ '.')
  let rest := cs2.drop ip.length
  match rest with
  | [] =>
      if ip ≠ [] ∧ ip.all Char.isDigit then some (sgn * (digitsVal ip : Rat)) else none
  | '.' :: fp =>
      if ip.all Char.isDigit ∧ fp ≠ [] ∧ fp.all Char.isDigit then
        some (sgn * ((digitsVal ip : Rat) + (digitsVal fp : Rat) / ((10 : Rat) ^ fp.length)))
      else none
  | _ => none

/-- Model of `QDate::fromString(s, Qt::ISODate)` followed by `isValid`:
a `YYYY-MM-DD` string with plausible month and day, as an optional
triple (simplified calendar validity; no claim depends on the exact
calendar rules). -/
def dateFromString (s : String) : Option (Nat × Nat × Nat) :=
  match (splitChars (fun c => c = '-') s.data).map String.mk with
  | [y, m, d] =>
      if y.data ≠ [] ∧ y.data.all Char.isDigit ∧ m.data ≠ [] ∧ m.data.all Char.isDigit ∧
         d.data ≠ [] ∧ d.data.all Char.isDigit then
        let mv := digitsVal m.data
        let dv := digitsVal d.data
        if 1 ≤ mv ∧ mv ≤ 12 ∧ 1 ≤ dv ∧ dv ≤ 31 then some (digitsVal y.data, mv, dv)
        else none
      else none
  | _ => none

/-! ## Filesystem oracle and file info -/

/-- The filesystem as seen by the provider: existence of a path and
canonical (symlink-free, absolute) resolution.  `canon` returns the
empty string for paths that do not resolve, as
`QFileInfo::canonicalFilePath` does. -/
structure FS where
  exists? : String → Bool
  canon : String → String

/-- Model of a `QFileInfo` built from `QFileInfo(dir, relativePath)`:
the combined path. -/
structure FileInfo where
  resolved : String
deriving DecidableEq

/-! ## Data model (the structs of the anonymous namespace) -/

/-- `struct Emulator`: executable path and default command-line
parameters. -/
structure Emulator where
  app_path : String
  cmd_params : String
deriving DecidableEq

/-- `Emulator::incomplete`. -/
def Emulator.incomplete (e : Emulator) : Bool := e.app_path = ""

/-- `struct Platform`. -/
structure Platform where
  default_emu_id : String
  name : String
  cmd_params : String
  xml_path : String
deriving DecidableEq

/-- `Platform::incomplete`. -/
def Platform.incomplete (p : Platform) : Bool :=
  p.default_emu_id = "" || p.name = "" || p.xml_path = ""

/-- `enum class GameField`. -/
inductive GameField where
  | ID | PATH | TITLE | RELEASE | DEVELOPER | PUBLISHER
  | NOTES | PLAYMODE | GENRE | STARS | EMULATOR | EMULATOR_PARAMS
deriving DecidableEq

/-- `enum class AdditionalAppField`. -/
inductive AdditionalAppField where
  | ID | GAME_ID | PATH | NAME
deriving DecidableEq

/-- `enum class AssetType` (the tags used by this provider). -/
inductive AssetType where
  | BOX_FRONT | BOX_BACK | ARCADE_MARQUEE | CARTRIDGE | SCREENSHOTS
  | POSTER | ARCADE_PANEL | LOGO | BACKGROUND | UI_STEAMGRID
  | MUSIC | VIDEOS
deriving DecidableEq

/-- `modeldata::GameFile`: a launch file with an optional display name. -/
structure GameFile where
  path : String
  name : Option String := none
deriving DecidableEq

/-- `modeldata::Game`: the mutable game-record accumulator. -/
structure Game where
  title : String := ""
  description : String := ""
  developers : List String := []
  publishers : List String := []
  genres : List String := []
  release_date : Option (Nat × Nat × Nat) := none
  rating : Rat := 0
  launch_cmd : String := ""
  launch_workdir : String := ""
  files : List GameFile := []
  assets : List (AssetType × String) := []
deriving DecidableEq

/-- Modelled from the spec: the `modeldata::Game(QFileInfo)` constructor
(the class lives outside the provider source): construct a new Game from
the file-info — the display title from the file name, all metadata
fields unset/empty, the file itself as the first launch file. -/
def Game.fromFileInfo (finfo : FileInfo) : Game :=
  { title := completeBaseName finfo.resolved, files := [{ path := finfo.resolved }] }

/-- Modelled from the spec: `GameAssets::addFileMaybe` (the class lives
outside the provider source): attach the file under the asset type only
if no asset of that type is already attached — first-match-wins per
type, subsequent matches for the same type are ignored. -/
def addFileMaybe (assets : List (AssetType × String)) (t : AssetType) (path : String) :
    List (AssetType × String) :=
  if (alookup assets t).isSome then assets else assets ++ [(t, path)]

/-- `providers::SearchContext`: the shared scan accumulator — game
records by id, the canonical-path dedup index, and the per-collection
member lists. -/
structure SearchContext where
  games : List (Nat × Game) := []
  path_to_gameid : List (String × Nat) := []
  collections : List String := []
  collection_childs : List (String × List Nat) := []
deriving DecidableEq

/-! ## Field merging (`store_game_fields`) -/

/-- `pair.second.splitRef(QChar(';'))` with each segment trimmed
(the `PLAYMODE` case). -/
def splitPlayModes (s : String) : List String :=
  (splitChars (fun c => c = ';') s.data).map (fun cs => qtrim (String.mk cs))

/-- The `STARS` case of `store_game_fields`: the rating is replaced only
while it is effectively unset (`< 0.0001`), and only by a successfully
parsed larger value. -/
def starsMerge (r : Rat) (s : String) : Rat :=
  if r < 1 / 10000 then
    match toFloat s with
    | some fval => if fval > r then fval else r
    | none => r
  else r

/-- The `RELEASE` case of `store_game_fields`: the date is parsed only
while the stored date is invalid. -/
def releaseMerge (d : Option (Nat × Nat × Nat)) (s : String) : Option (Nat × Nat × Nat) :=
  if d.isSome then d else dateFromString s

/-- The loop state of `store_game_fields`: the game record under
construction together with the effective emulator path and parameters. -/
structure MergeAcc where
  game : Game
  emu_app : String
  emu_params : String

/-- One iteration of the field loop of `store_game_fields` (the
`switch (pair.first)` statement). -/
def applyField (emulators : List (String × Emulator)) (acc : MergeAcc)
    (pair : GameField × String) : MergeAcc :=
  match pair.1 with
  | .TITLE => { acc with game := { acc.game with title := pair.2 } }
  | .NOTES =>
      { acc with game := { acc.game with
          description := if acc.game.description = "" then pair.2 else acc.game.description } }
  | .DEVELOPER =>
      { acc with game := { acc.game with
          developers := removeDuplicates (acc.game.developers ++ [pair.2]) } }
  | .PUBLISHER =>
      { acc with game := { acc.game with
          publishers := removeDuplicates (acc.game.publishers ++ [pair.2]) } }
  | .GENRE =>
      { acc with game := { acc.game with
          genres := removeDuplicates (acc.game.genres ++ [pair.2]) } }
  | .RELEASE =>
      { acc with game := { acc.game with
          release_date := releaseMerge acc.game.release_date pair.2 } }
  | .STARS =>
      { acc with game := { acc.game with
          rating := starsMerge acc.game.rating pair.2 } }
  | .PLAYMODE =>
      { acc with game := { acc.game with
          genres := removeDuplicates (acc.game.genres ++ splitPlayModes pair.2) } }
  | .EMULATOR =>
      match alookup emulators pair.2 with
      | some emu => { acc with emu_app := emu.app_path }
      | none => acc
  | .EMULATOR_PARAMS => { acc with emu_params := pair.2 }
  | .ID => acc
  | .PATH => acc

/-- `emulators.at(id)`: the precondition that the key is present is
established by the referential pruning of the registry parser; the
default value is irrelevant to every theorem below. -/
def atEmu (emulators : List (String × Emulator)) (id : String) : Emulator :=
  agetD emulators id { app_path := "", cmd_params := "" }

/-- `store_game_fields`: merge a collected field map (in the given
iteration order) into a game record and synthesize the launch command
and working directory.  Note that, as in the source, the fallback for
`emu_params` when the platform override is empty is the emulator's
`app_path`, not its `cmd_params`. -/
def store_game_fields (game : Game) (fields : List (GameField × String))
    (platform : Platform) (emulators : List (String × Emulator)) : Game :=
  let emu_app := (atEmu emulators platform.default_emu_id).app_path
  let emu_params :=
    if platform.cmd_params = "" then (atEmu emulators platform.default_emu_id).app_path
    else platform.cmd_params
  let acc := fields.foldl (applyField emulators) ⟨game, emu_app, emu_params⟩
  { acc.game with
      launch_cmd := "\"" ++ acc.emu_app ++ "\" " ++ acc.emu_params ++ " \x7bfile.path\x7d",
      launch_workdir := dirOf acc.emu_app }

/-! ## Storing games (`store_game`) and the platform catalog parser -/

/-- The result of `store_game`: the id of the (created or reused) game,
the updated search context, the collection member list with this entry
appended, and the number of diagnostics emitted (the
`game has no launch command` warning). -/
structure StoreGameResult where
  gid : Nat
  sctx : SearchContext
  childs : List Nat
  warns : Nat
deriving DecidableEq

/-- `store_game`: resolve the game file to its canonical path and consult
the dedup index; on a hit reuse the existing game id, otherwise build a
new `Game`, merge the fields into it, and register it in the index under
the canonical path; in both cases append the id to the collection member
list. -/
def store_game (fs : FS) (finfo : FileInfo) (fields : List (GameField × String))
    (platform : Platform) (emulators : List (String × Emulator))
    (sctx : SearchContext) (collection_childs : List Nat) : StoreGameResult :=
  let can_path := fs.canon finfo.resolved
  match alookup sctx.path_to_gameid can_path with
  | some gid => ⟨gid, sctx, collection_childs ++ [gid], 0⟩
  | none =>
      let game := store_game_fields (Game.fromFileInfo finfo) fields platform emulators
      let warns := if game.launch_cmd = "" then 1 else 0
      let gid := sctx.games.length
      let sctx' := { sctx with
          path_to_gameid := (can_path, gid) :: sctx.path_to_gameid,
          games := sctx.games ++ [(gid, game)] }
      ⟨gid, sctx', collection_childs ++ [gid], warns⟩

/-- The result of `platform_xml_read_game`: updated context, collection
member list, file-local id map, and diagnostic count. -/
structure ReadGameResult where
  sctx : SearchContext
  childs : List Nat
  gmap : List (String × Nat)
  diags : Nat
deriving DecidableEq

/-- `platform_xml_read_game` after the field-collection loop (the
collected field map is the input): require an ID and a Path and an
existing game file; on failure skip the entry with one diagnostic,
otherwise store the game and record the XML-local id mapping. -/
def platform_xml_read_game (fs : FS) (lb_dir : String)
    (game_values : List (GameField × String)) (platform : Platform)
    (emulators : List (String × Emulator)) (sctx : SearchContext)
    (collection_childs : List Nat) (gameid_map : List (String × Nat)) : ReadGameResult :=
  match alookup game_values .ID with
  | none => ⟨sctx, collection_childs, gameid_map, 1⟩
  | some idv =>
      match alookup game_values .PATH with
      | none => ⟨sctx, collection_childs, gameid_map, 1⟩
      | some pathv =>
          let game_finfo : FileInfo := ⟨lb_dir ++ pathv⟩
          if fs.exists? game_finfo.resolved = false then
            ⟨sctx, collection_childs, gameid_map, 1⟩
          else
            let r := store_game fs game_finfo game_values platform emulators sctx collection_childs
            ⟨r.sctx, r.childs, aemplace gameid_map idv r.gid, r.warns⟩

/-- Replace the first element satisfying the predicate (model of mutating
through the iterator returned by `std::find_if`). -/
def updateFirst {α : Type} (p : α → Bool) (f : α → α) : List α → List α
  | [] => []
  | a :: l => if p a then f a :: l else a :: updateFirst p f l

/-- `store_addiapp`: require ID, GameID, a resolvable game reference in
the file-local id map, a Path, and an existing file — any failure skips
the entry with one diagnostic and leaves the context unchanged.  On
success, update the display name of an already-attached file or append a
new launch file, and register the canonical path in the dedup index
(an existing index entry is kept). -/
def store_addiapp (fs : FS) (lb_dir : String)
    (values : List (AdditionalAppField × String)) (gameid_map : List (String × Nat))
    (sctx : SearchContext) : SearchContext × Nat :=
  match alookup values .ID with
  | none => (sctx, 1)
  | some _ =>
      match alookup values .GAME_ID with
      | none => (sctx, 1)
      | some lb_gameid =>
          match alookup gameid_map lb_gameid with
          | none => (sctx, 1)
          | some gameid =>
              match alookup values .PATH with
              | none => (sctx, 1)
              | some pathv =>
                  let path_finfo : FileInfo := ⟨lb_dir ++ pathv⟩
                  if fs.exists? path_finfo.resolved = false then (sctx, 1)
                  else
                    let namev := alookup values .NAME
                    let can_path := fs.canon path_finfo.resolved
                    let game := agetD sctx.games gameid {}
                    let sameFile : GameFile → Bool :=
                      fun gf => fs.canon gf.path == fs.canon path_finfo.resolved
                    let rename : GameFile → GameFile := fun gf =>
                      match namev with
                      | some n => { gf with name := some n }
                      | none => gf
                    let game' :=
                      if game.files.any sameFile then
                        { game with files := updateFirst sameFile rename game.files }
                      else
                        { game with files := game.files ++ [{ path := path_finfo.resolved, name := namev }] }
                    ({ sctx with
                        games := aupdate sctx.games gameid (fun _ => game'),
                        path_to_gameid := aemplace sctx.path_to_gameid can_path gameid }, 0)

/-- One top-level element of a platform catalog file, with its child
fields already collected into a map (the element-reading loops of
`platform_xml_read_game` / `platform_xml_read_addiapp`). -/
inductive XmlEntry where
  | game (fields : List (GameField × String))
  | addiapp (values : List (AdditionalAppField × String))
  | other
deriving DecidableEq

/-- The loop state of `platform_xml_read_root`: the context, the
collection member list, the file-local id map, the deferred
additional-application entries, and the diagnostics so far. -/
structure ReadRootState where
  sctx : SearchContext
  childs : List Nat
  gmap : List (String × Nat)
  addiapps : List (List (AdditionalAppField × String))
  diags : Nat
deriving DecidableEq

/-- One iteration of the element loop of `platform_xml_read_root`:
`Game` elements are stored immediately, `AdditionalApplication` elements
are collected for the pass after the loop, anything else is skipped. -/
def read_root_step (fs : FS) (lb_dir : String) (platform : Platform)
    (emulators : List (String × Emulator)) (st : ReadRootState) (e : XmlEntry) :
    ReadRootState :=
  match e with
  | .game fields =>
      let r := platform_xml_read_game fs lb_dir fields platform emulators st.sctx st.childs st.gmap
      ⟨r.sctx, r.childs, r.gmap, st.addiapps, st.diags + r.diags⟩
  | .addiapp values => { st with addiapps := st.addiapps ++ [values] }
  | .other => st

/-- `platform_xml_read_root` (after the root-node check): ensure the
platform's collection exists, process all elements in document order
deferring `AdditionalApplication` entries, then resolve the deferred
entries against the complete file-local id map.  Returns the updated
context and the diagnostic count. -/
def platform_xml_read_root (fs : FS) (lb_dir : String) (platform : Platform)
    (emulators : List (String × Emulator)) (entries : List XmlEntry)
    (sctx : SearchContext) : SearchContext × Nat :=
  let sctx0 := { sctx with
      collections := if platform.name ∈ sctx.collections then sctx.collections
                     else sctx.collections ++ [platform.name] }
  let childs0 := (alookup sctx0.collection_childs platform.name).getD []
  let st := entries.foldl (read_root_step fs lb_dir platform emulators)
      ⟨sctx0, childs0, [], [], 0⟩
  let sctx1 := { st.sctx with
      collection_childs := aset st.sctx.collection_childs platform.name st.childs }
  st.addiapps.foldl
    (fun (acc : SearchContext × Nat) values =>
      let r := store_addiapp fs lb_dir values st.gmap acc.1
      (r.1, acc.2 + r.2))
    (sctx1, st.diags)

/-- The `Game` field maps of an element list, in document order. -/
def gameEntriesOf (l : List XmlEntry) : List (List (GameField × String)) :=
  l.filterMap (fun e => match e with | .game f => some f | _ => none)

/-- The `AdditionalApplication` value maps of an element list, in
document order. -/
def addiappValuesOf (l : List XmlEntry) : List (List (AdditionalAppField × String)) :=
  l.filterMap (fun e => match e with | .addiapp v => some v | _ => none)

/-- One step of the game-only pass (processing a single `Game` element's
collected fields). -/
def gamePassStep (fs : FS) (lb_dir : String) (platform : Platform)
    (emulators : List (String × Emulator)) (st : ReadGameResult)
    (fields : List (GameField × String)) : ReadGameResult :=
  let r := platform_xml_read_game fs lb_dir fields platform emulators st.sctx st.childs st.gmap
  ⟨r.sctx, r.childs, r.gmap, st.diags + r.diags⟩

/-- The specification's two-pass description of a platform catalog file:
first process every `Game` element, then resolve every
`AdditionalApplication` element against the complete file-local id map.
Stated separately from `platform_xml_read_root` so that the agreement of
the two can be proved. -/
def read_root_two_pass (fs : FS) (lb_dir : String) (platform : Platform)
    (emulators : List (String × Emulator)) (entries : List XmlEntry)
    (sctx : SearchContext) : SearchContext × Nat :=
  let sctx0 := { sctx with
      collections := if platform.name ∈ sctx.collections then sctx.collections
                     else sctx.collections ++ [platform.name] }
  let childs0 := (alookup sctx0.collection_childs platform.name).getD []
  let g := (gameEntriesOf entries).foldl (gamePassStep fs lb_dir platform emulators)
      ⟨sctx0, childs0, [], 0⟩
  let sctx1 := { g.sctx with
      collection_childs := aset g.sctx.collection_childs platform.name g.childs }
  (addiappValuesOf entries).foldl
    (fun (acc : SearchContext × Nat) values =>
      let r := store_addiapp fs lb_dir values g.gmap acc.1
      (r.1, acc.2 + r.2))
    (sctx1, g.diags)

/-! ## Registry parser (`read_emulators_xml`) -/

/-- One top-level element of the registry file, with its child elements
already collected (for a repeated child the last occurrence wins, as in
the streaming loop; a missing child leaves the default-initialized empty
string / absent path). -/
inductive RegistryEntry where
  | emuPlatform (emu_id name cmd : String)
  | emulator (id : String) (app_path_raw : Option String) (cmd : String)
  | other
deriving DecidableEq

/-- `EmulatorData`. -/
structure EmulatorData where
  emus : List (String × Emulator) := []
  platforms : List Platform := []
deriving DecidableEq

/-- The per-element bodies of the parse loop of `read_emulators_xml`:
build each platform (resolving its catalog path when the name is
non-empty) and each emulator (resolving its application path, which is
empty when the file does not exist), keeping only complete records. -/
def parse_registry_step (fs : FS) (lb_dir : String) (out : EmulatorData) :
    RegistryEntry → EmulatorData
  | .emuPlatform emu_id name cmd =>
      let platform : Platform :=
        { default_emu_id := emu_id, name := name, cmd_params := cmd,
          xml_path := if name ≠ "" then fs.canon (lb_dir ++ "Data/Platforms/" ++ name ++ ".xml")
                      else "" }
      if platform.incomplete = false then { out with platforms := out.platforms ++ [platform] }
      else out
  | .emulator id app_path_raw cmd =>
      let emu : Emulator :=
        { app_path := match app_path_raw with
            | some raw => fs.canon (lb_dir ++ raw)
            | none => "",
          cmd_params := cmd }
      if id ≠ "" ∧ emu.incomplete = false then { out with emus := aemplace out.emus id emu }
      else out
  | .other => out

/-- The post-parse pruning loop of `read_emulators_xml`: remove every
platform whose default-emulator reference has no entry in the emulator
map, emitting one diagnostic per removal. -/
def remove_platforms_without_emulator (emus : List (String × Emulator)) :
    List Platform → List Platform × Nat
  | [] => ([], 0)
  | p :: rest =>
      let r := remove_platforms_without_emulator emus rest
      if (alookup emus p.default_emu_id).isNone then (r.1, r.2 + 1)
      else (p :: r.1, r.2)

/-- `read_emulators_xml` over the collected element list: parse all
entries, then prune platforms with missing emulator references.  The
second component counts the diagnostics of the pruning loop. -/
def read_emulators_xml (fs : FS) (lb_dir : String) (entries : List RegistryEntry) :
    EmulatorData × Nat :=
  let data := entries.foldl (parse_registry_step fs lb_dir) {}
  let pruned := remove_platforms_without_emulator data.emus data.platforms
  ({ data with platforms := pruned.1 }, pruned.2)

/-! ## Asset matcher -/

/-- A file found by the recursive directory iteration, as the matcher
sees it: its complete base name (`QFileInfo::completeBaseName`) and its
full file path. -/
structure FileEntry where
  basename : String
  filepath : String
deriving DecidableEq

/-- The name looked up by `find_assets_in`: for categories with numeric
disambiguation suffixes the base name with its last three characters
removed (`basename.left(basename.length() - 3)`, intended for a `-NN`
tag), otherwise the base name itself. -/
def imageLookupKey (has_num_suffix : Bool) (basename : String) : String :=
  if has_num_suffix then qleft basename ((basename.length : Int) - 3) else basename

/-- `build_escaped_title_map`: escaped title to game id, over a
collection's members (`emplace`: the first game with a given escaped
title wins). -/
def build_escaped_title_map (coll_childs : List Nat) (games : List (Nat × Game)) :
    List (String × Nat) :=
  coll_childs.foldl (fun out gid => aemplace out (escapeTitle (agetD games gid {}).title) gid) []

/-- `find_assets_in`: for every enumerated file, look its (possibly
suffix-stripped) base name up in the escaped-title map and attach the
file to the found game. -/
def find_assets_in (files : List FileEntry) (asset_type : AssetType)
    (has_num_suffix : Bool) (title_to_gameid_map : List (String × Nat))
    (games : List (Nat × Game)) : List (Nat × Game) :=
  files.foldl
    (fun gs f =>
      match alookup title_to_gameid_map (imageLookupKey has_num_suffix f.basename) with
      | none => gs
      | some gid =>
          aupdate gs gid (fun g => { g with assets := addFileMaybe g.assets asset_type f.filepath }))
    games

/-- The title-derivation step of `find_videos_in`: strip a trailing
parenthetical (only when the name ends with a closing parenthesis and an
opening parenthesis occurs at a positive index before the final
character) and trim whitespace. -/
def videoGameTitle (basename : String) : String :=
  let title_range_end : Int :=
    if qendsWith basename ")" then
      let idx := qLastIndexOf basename '(' (-2)
      if 0 < idx then idx else (basename.length : Int)
    else (basename.length : Int)
  qtrim (qleft basename title_range_end)

/-- The retry transformation of `find_videos_in`: replace every
occurrence of " - " with ": ", then move a trailing ", The" to the
front. -/
def videoFallbackTitle (t : String) : String :=
  let t2 := qreplace t " - " ": "
  if qendsWith t2 ", The" then "The " ++ qleft t2 ((t2.length : Int) - 5) else t2

/-- `find_videos_in`: derive the title, look it up in the raw-title map;
on a miss transform once and retry; on a second miss skip the file. -/
def find_videos_in (files : List FileEntry) (title_to_gameid_map : List (String × Nat))
    (games : List (Nat × Game)) : List (Nat × Game) :=
  files.foldl
    (fun gs f =>
      let game_title := videoGameTitle f.basename
      match alookup title_to_gameid_map game_title with
      | some gid =>
          aupdate gs gid (fun g => { g with assets := addFileMaybe g.assets .VIDEOS f.filepath })
      | none =>
          match alookup title_to_gameid_map (videoFallbackTitle game_title) with
          | some gid =>
              aupdate gs gid (fun g => { g with assets := addFileMaybe g.assets .VIDEOS f.filepath })
          | none => gs)
    games

/-- The ordered image category directory list of `Literals::assetdir_map`. -/
def assetdir_map : List (String × AssetType) :=
  [("Box - Front", .BOX_FRONT),
   ("Box - Front - Reconstructed", .BOX_FRONT),
   ("Fanart - Box - Front", .BOX_FRONT),
   ("Box - Back", .BOX_BACK),
   ("Box - Back - Reconstructed", .BOX_BACK),
   ("Fanart - Box - Back", .BOX_BACK),
   ("Arcade - Marquee", .ARCADE_MARQUEE),
   ("Banner", .ARCADE_MARQUEE),
   ("Cart - Front", .CARTRIDGE),
   ("Disc", .CARTRIDGE),
   ("Fanart - Cart - Front", .CARTRIDGE),
   ("Fanart - Disc", .CARTRIDGE),
   ("Screenshot - Gameplay", .SCREENSHOTS),
   ("Screenshot - Game Select", .SCREENSHOTS),
   ("Screenshot - Game Title", .SCREENSHOTS),
   ("Screenshot - Game Over", .SCREENSHOTS),
   ("Screenshot - High Scores", .SCREENSHOTS),
   ("Advertisement Flyer - Front", .POSTER),
   ("Arcade - Control Panel", .ARCADE_PANEL),
   ("Clear Logo", .LOGO),
   ("Fanart - Background", .BACKGROUND),
   ("Steam Banner", .UI_STEAMGRID)]

/-- `find_assets`: image categories are matched against the escaped-title
map with the numeric-suffix flag set, music against the same map with the
flag clear, and videos against the raw-title map.  The recursive
directory iteration is modelled by `files_in`, mapping a directory path
to its enumerated files. -/
def find_assets (lb_dir : String) (platform : Platform)
    (adir_map : List (String × AssetType)) (files_in : String → List FileEntry)
    (sctx : SearchContext) : SearchContext :=
  match alookup sctx.collection_childs platform.name with
  | none => sctx
  | some collection_childs =>
      let esctitle_to_gameid_map := build_escaped_title_map collection_childs sctx.games
      let images_root := lb_dir ++ "Images/" ++ platform.name ++ "/"
      let games1 := adir_map.foldl
        (fun gs pr => find_assets_in (files_in (images_root ++ pr.1)) pr.2 true
            esctitle_to_gameid_map gs)
        sctx.games
      let music_root := lb_dir ++ "Music/" ++ platform.name ++ "/"
      let games2 := find_assets_in (files_in music_root) .MUSIC false
          esctitle_to_gameid_map games1
      let title_to_gameid_map := collection_childs.foldl
        (fun m gid => aemplace m (agetD games2 gid {}).title gid) []
      let video_root := lb_dir ++ "Videos/" ++ platform.name ++ "/"
      let games3 := find_videos_in (files_in video_root) title_to_gameid_map games2
      { sctx with games := games3 }

/-! ## Scan traces (for the dedup invariant) -/

/-- One catalog-parser operation against the shared context, at the level
at which games are created: a `Game` entry reaching `store_game`, or an
`AdditionalApplication` entry reaching `store_addiapp`. -/
inductive ScanOp where
  | sgame (finfo : FileInfo) (fields : List (GameField × String)) (platform : Platform)
      (emus : List (String × Emulator)) (coll : String)
  | saddi (lb_dir : String) (values : List (AdditionalAppField × String))
      (gmap : List (String × Nat))

/-- Execute one scan operation against the shared context. -/
def runOp (fs : FS) (sctx : SearchContext) : ScanOp → SearchContext
  | .sgame finfo fields platform emus coll =>
      let childs := (alookup sctx.collection_childs coll).getD []
      let r := store_game fs finfo fields platform emus sctx childs
      { r.sctx with collection_childs := aset r.sctx.collection_childs coll r.childs }
  | .saddi lb_dir values gmap => (store_addiapp fs lb_dir values gmap sctx).1

/-- Execute a scan trace. -/
def runOps (fs : FS) : List ScanOp → SearchContext → SearchContext
  | [], sctx => sctx
  | op :: ops, sctx => runOps fs ops (runOp fs sctx op)

/-- The game records created by one scan operation, as pairs of the
creating entry's canonical path and the id of the created record (a
`store_game` call that hits the dedup index creates nothing, as does
`store_addiapp`). -/
def newCreations (fs : FS) (sctx : SearchContext) : ScanOp → List (String × Nat)
  | .sgame finfo _ _ _ _ =>
      match alookup sctx.path_to_gameid (fs.canon finfo.resolved) with
      | some _ => []
      | none => [(fs.canon finfo.resolved, sctx.games.length)]
  | .saddi _ _ _ => []

/-- The game records created along a scan trace. -/
def scanCreations (fs : FS) : List ScanOp → SearchContext → List (String × Nat)
  | [], _ => []
  | op :: ops, sctx => newCreations fs sctx op ++ scanCreations fs ops (runOp fs sctx op)

/-- The rejection condition of `platform_xml_read_game`: a collected
field map lacking an ID, lacking a Path, or whose resolved game file
does not exist on disk. -/
def game_entry_rejected (fs : FS) (lb_dir : String)
    (game_values : List (GameField × String)) : Prop :=
  alookup game_values GameField.ID = none
  ∨ alookup game_values GameField.PATH = none
  ∨ ∃ pathv, alookup game_values GameField.PATH = some pathv
      ∧ fs.exists? (lb_dir ++ pathv) = false

/-- The rejection condition of `store_addiapp`: a missing ID, GameID or
Path field, a game reference absent from the file-local id map, or a
nonexistent file. -/
def addiapp_entry_rejected (fs : FS) (lb_dir : String)
    (values : List (AdditionalAppField × String)) (gameid_map : List (String × Nat)) : Prop :=
  alookup values AdditionalAppField.ID = none
  ∨ alookup values AdditionalAppField.GAME_ID = none
  ∨ (∃ g, alookup values AdditionalAppField.GAME_ID = some g ∧ alookup gameid_map g = none)
  ∨ alookup values AdditionalAppField.PATH = none
  ∨ ∃ pathv, alookup values AdditionalAppField.PATH = some pathv
      ∧ fs.exists? (lb_dir ++ pathv) = false

/-! ## Merge-characterization helpers -/

/-- Case analysis on the value a key holds in a field map; used to state
what each game-record field equals after the merge loop. -/
def mergeOpt {γ : Type} (o : Option String) (d : γ) (f : String → γ) : γ :=
  match o with
  | some v => f v
  | none => d

/-- The set of genre strings one field-map entry contributes to the
shared genre list (`GENRE` appends its value, `PLAYMODE` appends its
split segments, everything else contributes nothing). -/
def genreContrib (p : GameField × String) : Finset String :=
  if p.1 = .GENRE then {p.2}
  else if p.1 = .PLAYMODE then (splitPlayModes p.2).toFinset
  else ∅

/-- The set of genre strings a whole field map contributes. -/
def genreContribs (l : List (GameField × String)) : Finset String :=
  l.foldr (fun p s => genreContrib p ∪ s) ∅

/-! ## Concrete scenarios used by witnesses and counterexamples -/

/-- A filesystem on which every path exists and is its own canonical
path. -/
def fsAll : FS := ⟨fun _ => true, fun p => p⟩

/-- A concrete emulator with a default parameter template. -/
def emuFix : Emulator := ⟨"/usr/bin/emu", "-fullscreen"⟩

/-- A concrete emulator map. -/
def emusFix : List (String × Emulator) := [("e", emuFix)]

/-- A concrete platform with an empty command-line override. -/
def platFix : Platform := ⟨"e", "NES", "", "LB/Data/Platforms/NES.xml"⟩

/-- A scan trace: two game entries with distinct paths, then an
additional application of the second game whose file is the first
game's file. -/
def opsFix : List ScanOp :=
  [.sgame ⟨"p"⟩ [] platFix emusFix "NES",
   .sgame ⟨"q"⟩ [] platFix emusFix "NES"]

/-- The additional-application values of the trace above: entry `a` of
game `G2` pointing at file `p`. -/
def addiFix : List (AdditionalAppField × String) :=
  [(.ID, "a"), (.GAME_ID, "G2"), (.PATH, "p")]

/-- A field map holding a genre and a play-mode, in one iteration
order. -/
def genreFields1 : List (GameField × String) := [(.GENRE, "A"), (.PLAYMODE, "B")]

/-- The same field map in the other iteration order. -/
def genreFields2 : List (GameField × String) := [(.PLAYMODE, "B"), (.GENRE, "A")]

/-- A game entry with id `G1` and path `g`. -/
def gameEntryFix : List (GameField × String) := [(.ID, "G1"), (.PATH, "g")]

/-- A platform catalog in which an additional application precedes, and
references, the game it belongs to. -/
def entriesFix : List XmlEntry :=
  [.addiapp [(.ID, "a2"), (.GAME_ID, "G1"), (.PATH, "extra")],
   .game gameEntryFix]

/-- A context with one game titled `Mario` in the `NES` collection. -/
def sctxAssets : SearchContext :=
  { games := [(0, { title := "Mario" })],
    collections := ["NES"],
    collection_childs := [("NES", [0])] }

/-- Asset directories: a box-front image with a numeric suffix and a
music file without one. -/
def filesInFix : String → List FileEntry := fun d =>
  if d = "LB/Images/NES/Box - Front" then [⟨"Mario-01", "img"⟩]
  else if d = "LB/Music/NES/" then [⟨"Mario", "mus"⟩]
  else []

/-- The raw-title map of the video-matching scenario. -/
def vmapFix : List (String × Nat) := [("The Metroid Prime", 5)]

/-- The game list of the video-matching scenario. -/
def gamesVFix : List (Nat × Game) := [(5, { title := "The Metroid Prime" })]

/-- Registry entries: one emulator `e` and two platforms, the second of
which references a nonexistent emulator id. -/
def regEntriesFix : List RegistryEntry :=
  [.emulator "e" (some "emu") "-x",
   .emuPlatform "e" "NES" "",
   .emuPlatform "ghost" "SNES" ""]

/-! ## Association-list lemmas -/

theorem alookup_eq_none_of_not_mem {α β : Type} [DecidableEq α] {l : List (α × β)} {k : α}
    (h : k ∉ l.map Prod.fst) : alookup l k = none := by
  induction l with
  | nil => rfl
  | cons p l ih =>
      simp only [List.map_cons, List.mem_cons, not_or] at h
      have hne : ¬ p.1 = k := fun hh => h.1 hh.symm
      simp only [alookup, if_neg hne]
      exact ih h.2

theorem alookup_perm {α β : Type} [DecidableEq α] {l l' : List (α × β)}
    (h : l.Perm l') (hn : (l.map Prod.fst).Nodup) (k : α) :
    alookup l k = alookup l' k := by
  induction h with
  | nil => rfl
  | cons p h ih =>
      simp only [List.map_cons, List.nodup_cons] at hn
      simp only [alookup]
      split
      · rfl
      · exact ih hn.2
  | swap x y l =>
      simp only [List.map_cons, List.nodup_cons, List.mem_cons, not_or] at hn
      have hxy : ¬ y.1 = x.1 := hn.1.1
      by_cases h1 : y.1 = k
      · have h2 : ¬ x.1 = k := fun h2 => hxy (h1.trans h2.symm)
        simp only [alookup, if_pos h1, if_neg h2]
      · by_cases h2 : x.1 = k
        · simp only [alookup, if_pos h2, if_neg h1]
        · simp only [alookup, if_neg h1, if_neg h2]
  | trans h1 h2 ih1 ih2 =>
      have hn2 : _ := ((h1.map Prod.fst).nodup_iff).mp hn
      rw [ih1 hn, ih2 hn2]

theorem alookup_aemplace_of_isSome {α β : Type} [DecidableEq α] {l : List (α × β)} {k k' : α}
    {w : β} (v : β) (h : alookup l k' = some w) :
    alookup (aemplace l k v) k' = some w := by
  unfold aemplace
  split
  · exact h
  · next hk =>
      simp only [alookup]
      split
      · next he =>
          subst he
          rw [h] at hk
          simp at hk
      · exact h

theorem alookup_aemplace_self_of_none {α β : Type} [DecidableEq α] {l : List (α × β)} {k : α}
    (v : β) (h : alookup l k = none) :
    alookup (aemplace l k v) k = some v := by
  unfold aemplace
  rw [h]
  simp [alookup]

theorem aemplace_of_isSome {α β : Type} [DecidableEq α] {l : List (α × β)} {k : α}
    (v : β) (h : (alookup l k).isSome) : aemplace l k v = l := by
  unfold aemplace
  rw [if_pos h]

/-! ## Projections of one field-merge step -/

theorem applyField_game_title (emus : List (String × Emulator)) (acc : MergeAcc)
    (k : GameField) (v : String) :
    (applyField emus acc (k, v)).game.title
      = if k = .TITLE then v else acc.game.title := by
  cases k <;> simp only [applyField] <;> first
    | rfl
    | (cases alookup emus v <;> rfl)

theorem applyField_game_description (emus : List (String × Emulator)) (acc : MergeAcc)
    (k : GameField) (v : String) :
    (applyField emus acc (k, v)).game.description
      = if k = .NOTES then (if acc.game.description = "" then v else acc.game.description)
        else acc.game.description := by
  cases k <;> simp only [applyField] <;> first
    | rfl
    | (cases alookup emus v <;> rfl)

theorem applyField_game_developers (emus : List (String × Emulator)) (acc : MergeAcc)
    (k : GameField) (v : String) :
    (applyField emus acc (k, v)).game.developers
      = if k = .DEVELOPER then removeDuplicates (acc.game.developers ++ [v])
        else acc.game.developers := by
  cases k <;> simp only [applyField] <;> first
    | rfl
    | (cases alookup emus v <;> rfl)

theorem applyField_game_publishers (emus : List (String × Emulator)) (acc : MergeAcc)
    (k : GameField) (v : String) :
    (applyField emus acc (k, v)).game.publishers
      = if k = .PUBLISHER then removeDuplicates (acc.game.publishers ++ [v])
        else acc.game.publishers := by
  cases k <;> simp only [applyField] <;> first
    | rfl
    | (cases alookup emus v <;> rfl)

theorem applyField_game_release (emus : List (String × Emulator)) (acc : MergeAcc)
    (k : GameField) (v : String) :
    (applyField emus acc (k, v)).game.release_date
      = if k = .RELEASE then releaseMerge acc.game.release_date v
        else acc.game.release_date := by
  cases k <;> simp only [applyField] <;> first
    | rfl
    | (cases alookup emus v <;> rfl)

theorem applyField_game_rating (emus : List (String × Emulator)) (acc : MergeAcc)
    (k : GameField) (v : String) :
    (applyField emus acc (k, v)).game.rating
      = if k = .STARS then starsMerge acc.game.rating v else acc.game.rating := by
  cases k <;> simp only [applyField] <;> first
    | rfl
    | (cases alookup emus v <;> rfl)

theorem applyField_game_genres (emus : List (String × Emulator)) (acc : MergeAcc)
    (k : GameField) (v : String) :
    (applyField emus acc (k, v)).game.genres
      = if k = .GENRE then removeDuplicates (acc.game.genres ++ [v])
        else if k = .PLAYMODE then removeDuplicates (acc.game.genres ++ splitPlayModes v)
        else acc.game.genres := by
  cases k <;> simp only [applyField] <;> first
    | rfl
    | (cases alookup emus v <;> rfl)

theorem applyField_game_files (emus : List (String × Emulator)) (acc : MergeAcc)
    (k : GameField) (v : String) :
    (applyField emus acc (k, v)).game.files = acc.game.files := by
  cases k <;> simp only [applyField] <;> first
    | rfl
    | (cases alookup emus v <;> rfl)

theorem applyField_game_assets (emus : List (String × Emulator)) (acc : MergeAcc)
    (k : GameField) (v : String) :
    (applyField emus acc (k, v)).game.assets = acc.game.assets := by
  cases k <;> simp only [applyField] <;> first
    | rfl
    | (cases alookup emus v <;> rfl)

theorem applyField_emu_app (emus : List (String × Emulator)) (acc : MergeAcc)
    (k : GameField) (v : String) :
    (applyField emus acc (k, v)).emu_app
      = if k = .EMULATOR then
          (match alookup emus v with
           | some emu => emu.app_path
           | none => acc.emu_app)
        else acc.emu_app := by
  cases k <;> simp only [applyField] <;> first
    | rfl
    | (cases alookup emus v <;> rfl)

theorem applyField_emu_params (emus : List (String × Emulator)) (acc : MergeAcc)
    (k : GameField) (v : String) :
    (applyField emus acc (k, v)).emu_params
      = if k = .EMULATOR_PARAMS then v else acc.emu_params := by
  cases k <;> simp only [applyField] <;> first
    | rfl
    | (cases alookup emus v <;> rfl)

/-! ## Characterizations of the field-merge loop -/

theorem foldl_game_title (emus : List (String × Emulator)) :
    ∀ (l : List (GameField × String)) (acc : MergeAcc), (l.map Prod.fst).Nodup →
      (l.foldl (applyField emus) acc).game.title
        = mergeOpt (alookup l .TITLE) acc.game.title (fun v => v) := by
  intro l
  induction l with
  | nil => intro acc _; rfl
  | cons p l ih =>
      intro acc hn
      obtain ⟨k, v⟩ := p
      simp only [List.map_cons, List.nodup_cons] at hn
      simp only [List.foldl_cons]
      rw [ih _ hn.2]
      by_cases hk : k = GameField.TITLE
      · subst hk
        rw [alookup_eq_none_of_not_mem hn.1]
        simp [alookup, mergeOpt, applyField_game_title]
      · simp [alookup, hk, mergeOpt, applyField_game_title]

theorem foldl_game_description (emus : List (String × Emulator)) :
    ∀ (l : List (GameField × String)) (acc : MergeAcc), (l.map Prod.fst).Nodup →
      (l.foldl (applyField emus) acc).game.description
        = mergeOpt (alookup l .NOTES) acc.game.description
            (fun v => if acc.game.description = "" then v else acc.game.description) := by
  intro l
  induction l with
  | nil => intro acc _; rfl
  | cons p l ih =>
      intro acc hn
      obtain ⟨k, v⟩ := p
      simp only [List.map_cons, List.nodup_cons] at hn
      simp only [List.foldl_cons]
      rw [ih _ hn.2]
      by_cases hk : k = GameField.NOTES
      · subst hk
        rw [alookup_eq_none_of_not_mem hn.1]
        simp [alookup, mergeOpt, applyField_game_description]
      · simp [alookup, hk, mergeOpt, applyField_game_description]

theorem foldl_game_developers (emus : List (String × Emulator)) :
    ∀ (l : List (GameField × String)) (acc : MergeAcc), (l.map Prod.fst).Nodup →
      (l.foldl (applyField emus) acc).game.developers
        = mergeOpt (alookup l .DEVELOPER) acc.game.developers
            (fun v => removeDuplicates (acc.game.developers ++ [v])) := by
  intro l
  induction l with
  | nil => intro acc _; rfl
  | cons p l ih =>
      intro acc hn
      obtain ⟨k, v⟩ := p
      simp only [List.map_cons, List.nodup_cons] at hn
      simp only [List.foldl_cons]
      rw [ih _ hn.2]
      by_cases hk : k = GameField.DEVELOPER
      · subst hk
        rw [alookup_eq_none_of_not_mem hn.1]
        simp [alookup, mergeOpt, applyField_game_developers]
      · simp [alookup, hk, mergeOpt, applyField_game_developers]

theorem foldl_game_publishers (emus : List (String × Emulator)) :
    ∀ (l : List (GameField × String)) (acc : MergeAcc), (l.map Prod.fst).Nodup →
      (l.foldl (applyField emus) acc).game.publishers
        = mergeOpt (alookup l .PUBLISHER) acc.game.publishers
            (fun v => removeDuplicates (acc.game.publishers ++ [v])) := by
  intro l
  induction l with
  | nil => intro acc _; rfl
  | cons p l ih =>
      intro acc hn
      obtain ⟨k, v⟩ := p
      simp only [List.map_cons, List.nodup_cons] at hn
      simp only [List.foldl_cons]
      rw [ih _ hn.2]
      by_cases hk : k = GameField.PUBLISHER
      · subst hk
        rw [alookup_eq_none_of_not_mem hn.1]
        simp [alookup, mergeOpt, applyField_game_publishers]
      · simp [alookup, hk, mergeOpt, applyField_game_publishers]

theorem foldl_game_release (emus : List (String × Emulator)) :
    ∀ (l : List (GameField × String)) (acc : MergeAcc), (l.map Prod.fst).Nodup →
      (l.foldl (applyField emus) acc).game.release_date
        = mergeOpt (alookup l .RELEASE) acc.game.release_date
            (fun v => releaseMerge acc.game.release_date v) := by
  intro l
  induction l with
  | nil => intro acc _; rfl
  | cons p l ih =>
      intro acc hn
      obtain ⟨k, v⟩ := p
      simp only [List.map_cons, List.nodup_cons] at hn
      simp only [List.foldl_cons]
      rw [ih _ hn.2]
      by_cases hk : k = GameField.RELEASE
      · subst hk
        rw [alookup_eq_none_of_not_mem hn.1]
        simp [alookup, mergeOpt, applyField_game_release]
      · simp [alookup, hk, mergeOpt, applyField_game_release]

theorem foldl_game_rating (emus : List (String × Emulator)) :
    ∀ (l : List (GameField × String)) (acc : MergeAcc), (l.map Prod.fst).Nodup →
      (l.foldl (applyField emus) acc).game.rating
        = mergeOpt (alookup l .STARS) acc.game.rating
            (fun v => starsMerge acc.game.rating v) := by
  intro l
  induction l with
  | nil => intro acc _; rfl
  | cons p l ih =>
      intro acc hn
      obtain ⟨k, v⟩ := p
      simp only [List.map_cons, List.nodup_cons] at hn
      simp only [List.foldl_cons]
      rw [ih _ hn.2]
      by_cases hk : k = GameField.STARS
      · subst hk
        rw [alookup_eq_none_of_not_mem hn.1]
        simp [alookup, mergeOpt, applyField_game_rating]
      · simp [alookup, hk, mergeOpt, applyField_game_rating]

theorem foldl_game_files (emus : List (String × Emulator)) :
    ∀ (l : List (GameField × String)) (acc : MergeAcc),
      (l.foldl (applyField emus) acc).game.files = acc.game.files := by
  intro l
  induction l with
  | nil => intro acc; rfl
  | cons p l ih =>
      intro acc
      obtain ⟨k, v⟩ := p
      simp only [List.foldl_cons]
      rw [ih]
      exact applyField_game_files emus acc k v

theorem foldl_game_assets (emus : List (String × Emulator)) :
    ∀ (l : List (GameField × String)) (acc : MergeAcc),
      (l.foldl (applyField emus) acc).game.assets = acc.game.assets := by
  intro l
  induction l with
  | nil => intro acc; rfl
  | cons p l ih =>
      intro acc
      obtain ⟨k, v⟩ := p
      simp only [List.foldl_cons]
      rw [ih]
      exact applyField_game_assets emus acc k v

theorem foldl_emu_app (emus : List (String × Emulator)) :
    ∀ (l : List (GameField × String)) (acc : MergeAcc), (l.map Prod.fst).Nodup →
      (l.foldl (applyField emus) acc).emu_app
        = mergeOpt (alookup l .EMULATOR) acc.emu_app
            (fun v =>
              match alookup emus v with
              | some emu => emu.app_path
              | none => acc.emu_app) := by
  intro l
  induction l with
  | nil => intro acc _; rfl
  | cons p l ih =>
      intro acc hn
      obtain ⟨k, v⟩ := p
      simp only [List.map_cons, List.nodup_cons] at hn
      simp only [List.foldl_cons]
      rw [ih _ hn.2]
      by_cases hk : k = GameField.EMULATOR
      · subst hk
        rw [alookup_eq_none_of_not_mem hn.1]
        simp only [alookup, if_pos rfl, mergeOpt, applyField_emu_app, if_pos rfl]
        simp
      · simp [alookup, hk, mergeOpt, applyField_emu_app]

theorem foldl_emu_params (emus : List (String × Emulator)) :
    ∀ (l : List (GameField × String)) (acc : MergeAcc), (l.map Prod.fst).Nodup →
      (l.foldl (applyField emus) acc).emu_params
        = mergeOpt (alookup l .EMULATOR_PARAMS) acc.emu_params (fun v => v) := by
  intro l
  induction l with
  | nil => intro acc _; rfl
  | cons p l ih =>
      intro acc hn
      obtain ⟨k, v⟩ := p
      simp only [List.map_cons, List.nodup_cons] at hn
      simp only [List.foldl_cons]
      rw [ih _ hn.2]
      by_cases hk : k = GameField.EMULATOR_PARAMS
      · subst hk
        rw [alookup_eq_none_of_not_mem hn.1]
        simp [alookup, mergeOpt, applyField_emu_params]
      · simp [alookup, hk, mergeOpt, applyField_emu_params]

/-! ## Genre-set lemmas -/

theorem mem_removeDuplicates_aux (x : String) :
    ∀ (l acc : List String),
      (x ∈ l.foldl (fun acc a => if a ∈ acc then acc else acc ++ [a]) acc) ↔ x ∈ acc ∨ x ∈ l := by
  intro l
  induction l with
  | nil => intro acc; simp
  | cons a l ih =>
      intro acc
      simp only [List.foldl_cons]
      rw [ih]
      by_cases ha : a ∈ acc
      · simp only [if_pos ha, List.mem_cons]
        constructor
        · intro h
          rcases h with h | h
          · exact Or.inl h
          · exact Or.inr (Or.inr h)
        · intro h
          rcases h with h | h | h
          · exact Or.inl h
          · exact Or.inl (h ▸ ha)
          · exact Or.inr h
      · simp only [if_neg ha, List.mem_append, List.mem_singleton, List.mem_cons]
        tauto

theorem mem_removeDuplicates (x : String) (l : List String) :
    x ∈ removeDuplicates l ↔ x ∈ l := by
  unfold removeDuplicates
  rw [mem_removeDuplicates_aux]
  simp

theorem toFinset_removeDuplicates (l : List String) :
    (removeDuplicates l).toFinset = l.toFinset := by
  apply Finset.ext
  intro x
  simp [mem_removeDuplicates]

theorem foldl_game_genres (emus : List (String × Emulator)) :
    ∀ (l : List (GameField × String)) (acc : MergeAcc),
      (l.foldl (applyField emus) acc).game.genres.toFinset
        = acc.game.genres.toFinset ∪ genreContribs l := by
  intro l
  induction l with
  | nil => intro acc; simp [genreContribs]
  | cons p l ih =>
      intro acc
      obtain ⟨k, v⟩ := p
      simp only [List.foldl_cons]
      rw [ih]
      have hg : genreContribs ((k, v) :: l) = genreContrib (k, v) ∪ genreContribs l := rfl
      rw [hg, applyField_game_genres]
      by_cases hk : k = GameField.GENRE
      · subst hk
        rw [if_pos rfl]
        rw [toFinset_removeDuplicates]
        simp only [List.toFinset_append, genreContrib, if_pos rfl]
        rw [Finset.union_assoc]
        simp [Finset.union_comm]
      · by_cases hk2 : k = GameField.PLAYMODE
        · subst hk2
          rw [if_neg hk, if_pos rfl]
          rw [toFinset_removeDuplicates]
          simp only [List.toFinset_append, genreContrib, if_neg hk, if_pos rfl]
          rw [Finset.union_assoc]
          simp
        · rw [if_neg hk, if_neg hk2]
          simp only [genreContrib, if_neg hk, if_neg hk2]
          simp

theorem genreContribs_perm {l l' : List (GameField × String)} (h : l.Perm l') :
    genreContribs l = genreContribs l' := by
  induction h with
  | nil => rfl
  | cons p h ih =>
      show genreContrib p ∪ genreContribs _ = genreContrib p ∪ genreContribs _
      rw [ih]
  | swap x y l =>
      show genreContrib y ∪ (genreContrib x ∪ genreContribs l)
          = genreContrib x ∪ (genreContrib y ∪ genreContribs l)
      rw [← Finset.union_assoc, ← Finset.union_assoc, Finset.union_comm (genreContrib y)]
  | trans h1 h2 ih1 ih2 => rw [ih1, ih2]

/-! ## Launch command synthesis -/

theorem store_game_fields_launch_cmd_length (game : Game) (fields : List (GameField × String))
    (platform : Platform) (emulators : List (String × Emulator)) :
    0 < (store_game_fields game fields platform emulators).launch_cmd.length := by
  simp only [store_game_fields, String.length_append]
  have h : ("\"" : String).length = 1 := rfl
  omega

/-- Claim C10 (confirmed): for every game created from a field map the
synthesized launch command is a non-empty string (the template always
contains the quoted emulator path and the literal file-path
placeholder), so the `game has no launch command` warning branch in
`store_game` is unreachable: `store_game` never emits that warning. -/
theorem lbx_c10_launch_cmd_nonempty :
    (∀ (game : Game) (fields : List (GameField × String)) (platform : Platform)
        (emulators : List (String × Emulator)),
        0 < (store_game_fields game fields platform emulators).launch_cmd.length)
    ∧ (∀ (fs : FS) (finfo : FileInfo) (fields : List (GameField × String))
        (platform : Platform) (emulators : List (String × Emulator))
        (sctx : SearchContext) (childs : List Nat),
        (store_game fs finfo fields platform emulators sctx childs).warns = 0) := by
  constructor
  · exact store_game_fields_launch_cmd_length
  · intro fs finfo fields platform emulators sctx childs
    have hne : (store_game_fields (Game.fromFileInfo finfo) fields platform emulators).launch_cmd
        ≠ "" := by
      intro he
      have hl := store_game_fields_launch_cmd_length (Game.fromFileInfo finfo) fields
        platform emulators
      rw [he] at hl
      simp at hl
    unfold store_game
    cases h : alookup sctx.path_to_gameid (fs.canon finfo.resolved) with
    | some gid => simp [h]
    | none => simp [h, hne]

/-- Claim C2 (code bug, evaluated at the failing input): with no
per-game CommandLine value and an empty platform-level override, the
synthesized parameters are the emulator's application path — the
emulator's own `cmd_params` (here `-fullscreen`) are not consulted,
although they are parsed from the registry. -/
theorem lbx_c2_params_fallback_eval :
    emuFix.cmd_params = "-fullscreen"
    ∧ platFix.cmd_params = ""
    ∧ (store_game_fields {} [] platFix emusFix).launch_cmd
        = "\"/usr/bin/emu\" /usr/bin/emu \x7bfile.path\x7d"
    ∧ (store_game_fields {} [] platFix emusFix).launch_cmd
        ≠ "\"/usr/bin/emu\" -fullscreen \x7bfile.path\x7d" := by decide

/-! ## Rating merges (C3) -/

theorem toFloat_eval_half : toFloat "0.5" = some (1 / 2) := by
  have h : toFloat "0.5" =
      some ((1 : Rat) * (((0 : Nat) : Rat) + ((5 : Nat) : Rat) / ((10 : Rat) ^ (1 : Nat)))) := rfl
  rw [h]
  norm_num

theorem starsMerge_zero_half : starsMerge 0 "0.5" = 1 / 2 := by
  unfold starsMerge
  rw [if_pos (by norm_num), toFloat_eval_half]
  simp only
  rw [if_pos (by norm_num)]

theorem starsMerge_frozen (r : Rat) (s : String) (h : 1 / 10000 ≤ r) :
    starsMerge r s = r := by
  unfold starsMerge
  rw [if_neg (by push_neg; exact h)]

theorem foldl_game_rating_frozen (emus : List (String × Emulator)) :
    ∀ (l : List (GameField × String)) (acc : MergeAcc), 1 / 10000 ≤ acc.game.rating →
      (l.foldl (applyField emus) acc).game.rating = acc.game.rating := by
  intro l
  induction l with
  | nil => intro acc _; rfl
  | cons p l ih =>
      intro acc h
      obtain ⟨k, v⟩ := p
      simp only [List.foldl_cons]
      have hr : (applyField emus acc (k, v)).game.rating = acc.game.rating := by
        rw [applyField_game_rating]
        split
        · exact starsMerge_frozen _ _ h
        · rfl
      rw [ih _ (by rw [hr]; exact h), hr]

theorem store_game_fields_rating (g : Game) (l : List (GameField × String))
    (platform : Platform) (emus : List (String × Emulator))
    (hnd : (l.map Prod.fst).Nodup) :
    (store_game_fields g l platform emus).rating
      = mergeOpt (alookup l .STARS) g.rating (fun v => starsMerge g.rating v) := by
  simp only [store_game_fields]
  exact foldl_game_rating emus l _ hnd

theorem store_game_fields_rating_single (g : Game) (s : String)
    (platform : Platform) (emus : List (String × Emulator)) :
    (store_game_fields g [(.STARS, s)] platform emus).rating = starsMerge g.rating s := by
  rw [store_game_fields_rating g [(.STARS, s)] platform emus (by simp)]
  simp [alookup, mergeOpt]

/-- Claim C3 (counterexample): merging STARS values 0.5, then 0.3, then
0.9 into a fresh game record leaves the final rating at 0.5, not at the
claimed maximum 0.9 — the merge only ever replaces an effectively-unset
rating. -/
theorem lbx_c3_rating_max_cex :
    (store_game_fields
        (store_game_fields
          (store_game_fields {} [(.STARS, "0.5")] platFix emusFix)
          [(.STARS, "0.3")] platFix emusFix)
        [(.STARS, "0.9")] platFix emusFix).rating = 1 / 2
    ∧ ((1 : Rat) / 2) ≠ 9 / 10 := by
  have h0 : ({} : Game).rating = 0 := rfl
  have h1 : (store_game_fields {} [(.STARS, "0.5")] platFix emusFix).rating = 1 / 2 := by
    rw [store_game_fields_rating_single, h0, starsMerge_zero_half]
  have h2 : (store_game_fields (store_game_fields {} [(.STARS, "0.5")] platFix emusFix)
      [(.STARS, "0.3")] platFix emusFix).rating = 1 / 2 := by
    rw [store_game_fields_rating_single, h1, starsMerge_frozen _ _ (by norm_num)]
  have h3 : (store_game_fields
      (store_game_fields (store_game_fields {} [(.STARS, "0.5")] platFix emusFix)
        [(.STARS, "0.3")] platFix emusFix) [(.STARS, "0.9")] platFix emusFix).rating = 1 / 2 := by
    rw [store_game_fields_rating_single, h2, starsMerge_frozen _ _ (by norm_num)]
  exact ⟨h3, by norm_num⟩

/-- Claim C3 (amended): repeated STARS merges keep the first
successfully parsed positive value, not the maximum: a STARS merge has
no effect once the stored rating is at least 0.0001, and the
0.5/0.3/0.9 sequence therefore ends at 0.5. -/
theorem lbx_c3_rating_first_value_wins :
    ((store_game_fields
        (store_game_fields
          (store_game_fields {} [(.STARS, "0.5")] platFix emusFix)
          [(.STARS, "0.3")] platFix emusFix)
        [(.STARS, "0.9")] platFix emusFix).rating = 1 / 2)
    ∧ (∀ (g : Game) (l : List (GameField × String)) (platform : Platform)
          (emus : List (String × Emulator)), 1 / 10000 ≤ g.rating →
          (store_game_fields g l platform emus).rating = g.rating) := by
  constructor
  · exact lbx_c3_rating_max_cex.1
  · intro g l platform emus h
    simp only [store_game_fields]
    exact foldl_game_rating_frozen emus l _ h

/-! ## Iteration-order independence of the field merge (C9) -/

/-- Claim C9 (counterexample): two iteration orders of the same
unordered field map, holding a GENRE and a PLAYMODE entry, produce
observably different game records — the shared genre list keeps the
entries in iteration order. -/
theorem lbx_c9_iteration_order_cex :
    genreFields1.Perm genreFields2
    ∧ (store_game_fields {} genreFields1 platFix emusFix).genres = ["A", "B"]
    ∧ (store_game_fields {} genreFields2 platFix emusFix).genres = ["B", "A"]
    ∧ store_game_fields {} genreFields1 platFix emusFix
        ≠ store_game_fields {} genreFields2 platFix emusFix := by
  refine ⟨List.Perm.swap _ _ _, by decide, by decide, by decide⟩

/-- Claim C9 (amended): for any two iteration orders of a collected
field map (a key-nodup association list), the merged game records agree
on every field — title, description, developer and publisher lists,
release date, rating, launch command, working directory, launch files
and assets — except that the shared genre list may be reordered; it
always holds exactly the same set of entries. -/
theorem lbx_c9_iteration_order_amended (g0 : Game) (platform : Platform)
    (emus : List (String × Emulator)) (l1 l2 : List (GameField × String))
    (hperm : l1.Perm l2) (hnd : (l1.map Prod.fst).Nodup) :
    (store_game_fields g0 l1 platform emus).title
        = (store_game_fields g0 l2 platform emus).title
    ∧ (store_game_fields g0 l1 platform emus).description
        = (store_game_fields g0 l2 platform emus).description
    ∧ (store_game_fields g0 l1 platform emus).developers
        = (store_game_fields g0 l2 platform emus).developers
    ∧ (store_game_fields g0 l1 platform emus).publishers
        = (store_game_fields g0 l2 platform emus).publishers
    ∧ (store_game_fields g0 l1 platform emus).release_date
        = (store_game_fields g0 l2 platform emus).release_date
    ∧ (store_game_fields g0 l1 platform emus).rating
        = (store_game_fields g0 l2 platform emus).rating
    ∧ (store_game_fields g0 l1 platform emus).launch_cmd
        = (store_game_fields g0 l2 platform emus).launch_cmd
    ∧ (store_game_fields g0 l1 platform emus).launch_workdir
        = (store_game_fields g0 l2 platform emus).launch_workdir
    ∧ (store_game_fields g0 l1 platform emus).files
        = (store_game_fields g0 l2 platform emus).files
    ∧ (store_game_fields g0 l1 platform emus).assets
        = (store_game_fields g0 l2 platform emus).assets
    ∧ (store_game_fields g0 l1 platform emus).genres.toFinset
        = (store_game_fields g0 l2 platform emus).genres.toFinset := by
  have hnd2 : (l2.map Prod.fst).Nodup := ((hperm.map Prod.fst).nodup_iff).mp hnd
  have hl : ∀ k, alookup l1 k = alookup l2 k := fun k => alookup_perm hperm hnd k
  refine ⟨?_, ?_, ?_, ?_, ?_, ?_, ?_, ?_, ?_, ?_, ?_⟩
  · simp only [store_game_fields]
    rw [foldl_game_title emus l1 _ hnd, foldl_game_title emus l2 _ hnd2, hl]
  · simp only [store_game_fields]
    rw [foldl_game_description emus l1 _ hnd, foldl_game_description emus l2 _ hnd2, hl]
  · simp only [store_game_fields]
    rw [foldl_game_developers emus l1 _ hnd, foldl_game_developers emus l2 _ hnd2, hl]
  · simp only [store_game_fields]
    rw [foldl_game_publishers emus l1 _ hnd, foldl_game_publishers emus l2 _ hnd2, hl]
  · simp only [store_game_fields]
    rw [foldl_game_release emus l1 _ hnd, foldl_game_release emus l2 _ hnd2, hl]
  · simp only [store_game_fields]
    rw [foldl_game_rating emus l1 _ hnd, foldl_game_rating emus l2 _ hnd2, hl]
  · simp only [store_game_fields]
    rw [foldl_emu_app emus l1 _ hnd, foldl_emu_app emus l2 _ hnd2,
        foldl_emu_params emus l1 _ hnd, foldl_emu_params emus l2 _ hnd2,
        hl GameField.EMULATOR, hl GameField.EMULATOR_PARAMS]
  · simp only [store_game_fields]
    rw [foldl_emu_app emus l1 _ hnd, foldl_emu_app emus l2 _ hnd2, hl GameField.EMULATOR]
  · simp only [store_game_fields]
    rw [foldl_game_files emus l1 _, foldl_game_files emus l2 _]
  · simp only [store_game_fields]
    rw [foldl_game_assets emus l1 _, foldl_game_assets emus l2 _]
  · simp only [store_game_fields]
    rw [foldl_game_genres emus l1 _, foldl_game_genres emus l2 _, genreContribs_perm hperm]

/-- Witness for the amended C9 theorem: the concrete GENRE/PLAYMODE map
in its two iteration orders yields equal genre sets. -/
theorem lbx_c9_iteration_order_amended_witness :
    genreFields1.Perm genreFields2
    ∧ (genreFields1.map Prod.fst).Nodup
    ∧ (store_game_fields {} genreFields1 platFix emusFix).genres.toFinset
        = (store_game_fields {} genreFields2 platFix emusFix).genres.toFinset := by
  refine ⟨List.Perm.swap _ _ _, by decide, ?_⟩
  exact (lbx_c9_iteration_order_amended {} platFix emusFix genreFields1 genreFields2
    (List.Perm.swap _ _ _) (by decide)).2.2.2.2.2.2.2.2.2.2

/-! ## The canonical-path dedup invariant (C1) -/

theorem lbx_c3_rating_first_value_wins_witness :
    (1 : Rat) / 10000 ≤ ({ rating := 1 } : Game).rating
    ∧ (store_game_fields { rating := 1 } [(.STARS, "0.9")] platFix emusFix).rating
        = ({ rating := 1 } : Game).rating := by
  have h : (1 : Rat) / 10000 ≤ ({ rating := 1 } : Game).rating := by
    show (1 : Rat) / 10000 ≤ 1
    norm_num
  exact ⟨h, lbx_c3_rating_first_value_wins.2 { rating := 1 } [(.STARS, "0.9")] platFix emusFix h⟩

theorem store_addiapp_shape (fs : FS) (lb_dir : String)
    (values : List (AdditionalAppField × String)) (gmap : List (String × Nat))
    (sctx : SearchContext) :
    store_addiapp fs lb_dir values gmap sctx = (sctx, 1)
    ∨ ∃ (gameid : Nat) (game' : Game) (can_path : String),
        store_addiapp fs lb_dir values gmap sctx
          = ({ sctx with
                games := aupdate sctx.games gameid (fun _ => game'),
                path_to_gameid := aemplace sctx.path_to_gameid can_path gameid }, 0) := by
  simp only [store_addiapp]
  repeat' split
  all_goals first
    | (left; rfl)
    | (right; exact ⟨_, _, _, rfl⟩)

theorem store_addiapp_games_length (fs : FS) (lb_dir : String)
    (values : List (AdditionalAppField × String)) (gmap : List (String × Nat))
    (sctx : SearchContext) :
    (store_addiapp fs lb_dir values gmap sctx).1.games.length = sctx.games.length := by
  rcases store_addiapp_shape fs lb_dir values gmap sctx with h | ⟨gameid, game', can_path, h⟩
  · rw [h]
  · rw [h]
    simp [aupdate]

theorem store_addiapp_path_mono (fs : FS) (lb_dir : String)
    (values : List (AdditionalAppField × String)) (gmap : List (String × Nat))
    (sctx : SearchContext) (p : String) (i : Nat)
    (h : alookup sctx.path_to_gameid p = some i) :
    alookup (store_addiapp fs lb_dir values gmap sctx).1.path_to_gameid p = some i := by
  rcases store_addiapp_shape fs lb_dir values gmap sctx with hs | ⟨gameid, game', can_path, hs⟩
  · rw [hs]; exact h
  · rw [hs]
    exact alookup_aemplace_of_isSome _ h

theorem runOp_path_mono (fs : FS) (sctx : SearchContext) (op : ScanOp) (p : String) (i : Nat)
    (h : alookup sctx.path_to_gameid p = some i) :
    alookup (runOp fs sctx op).path_to_gameid p = some i := by
  cases op with
  | sgame finfo fields platform emus coll =>
      simp only [runOp]
      unfold store_game
      cases hc : alookup sctx.path_to_gameid (fs.canon finfo.resolved) with
      | some gid => simpa [hc] using h
      | none =>
          simp only [hc, alookup]
          split
          · next he =>
              subst he
              rw [h] at hc
              simp at hc
          · exact h
  | saddi lb_dir values gmap =>
      simp only [runOp]
      exact store_addiapp_path_mono fs lb_dir values gmap sctx p i h

theorem runOp_sgame_registers (fs : FS) (sctx : SearchContext) (finfo : FileInfo)
    (fields : List (GameField × String)) (platform : Platform)
    (emus : List (String × Emulator)) (coll : String)
    (h : alookup sctx.path_to_gameid (fs.canon finfo.resolved) = none) :
    alookup (runOp fs sctx (.sgame finfo fields platform emus coll)).path_to_gameid
        (fs.canon finfo.resolved) = some sctx.games.length := by
  simp only [runOp]
  unfold store_game
  simp [h, alookup]

theorem scanCreations_registered (fs : FS) :
    ∀ (ops : List ScanOp) (sctx : SearchContext) (cs : List (String × Nat)),
      (∀ p i, (p, i) ∈ cs → alookup sctx.path_to_gameid p = some i) →
      ∀ p i, (p, i) ∈ cs ++ scanCreations fs ops sctx →
        alookup (runOps fs ops sctx).path_to_gameid p = some i := by
  intro ops
  induction ops with
  | nil =>
      intro sctx cs h p i hm
      simp only [scanCreations, List.append_nil] at hm
      exact h p i hm
  | cons op ops ih =>
      intro sctx cs h p i hm
      have hstep : ∀ p i, (p, i) ∈ cs ++ newCreations fs sctx op →
          alookup (runOp fs sctx op).path_to_gameid p = some i := by
        intro p i hpi
        rcases List.mem_append.mp hpi with hc | hnew
        · exact runOp_path_mono fs sctx op p i (h p i hc)
        · cases op with
          | sgame finfo fields platform emus coll =>
              simp only [newCreations] at hnew
              cases hc : alookup sctx.path_to_gameid (fs.canon finfo.resolved) with
              | some gid => rw [hc] at hnew; simp at hnew
              | none =>
                  rw [hc] at hnew
                  simp only [List.mem_singleton, Prod.mk.injEq] at hnew
                  rw [hnew.1, hnew.2]
                  exact runOp_sgame_registers fs sctx finfo fields platform emus coll hc
          | saddi lb_dir values gmap => simp [newCreations] at hnew
      have hm2 : (p, i) ∈ (cs ++ newCreations fs sctx op) ++ scanCreations fs ops (runOp fs sctx op) := by
        simpa [scanCreations, List.append_assoc] using hm
      exact ih (runOp fs sctx op) (cs ++ newCreations fs sctx op) hstep p i hm2

/-- Claim C1 (counterexample): a successful additional-application entry
whose file path is already registered in the dedup index (here as the
main file of game 0) does not re-register it: the index keeps pointing
at game 0 while the entry's own game is game 1 — so the entry's path is
not registered "pointing at its game". -/
theorem lbx_c1_addiapp_register_cex :
    (store_addiapp fsAll "" addiFix [("G2", 1)] (runOps fsAll opsFix {})).2 = 0
    ∧ (agetD (store_addiapp fsAll "" addiFix [("G2", 1)] (runOps fsAll opsFix {})).1.games 1 {}).files
        = [{ path := "q" }, { path := "p" }]
    ∧ alookup (store_addiapp fsAll "" addiFix [("G2", 1)]
        (runOps fsAll opsFix {})).1.path_to_gameid "p" = some 0
    ∧ (0 : Nat) ≠ 1 := by decide

/-- Claim C1 (amended): any two game records created during a scan with
equal canonical source paths are the same record.  `store_game` consults
the dedup index before creating, on a hit reuses the existing id and
only appends collection membership, and registers every newly created
game under its canonical path; `store_addiapp` never creates a game and
registers its file's canonical path only when that path is not already
in the index (an existing mapping is kept). -/
theorem lbx_c1_dedup_invariant :
    (∀ (fs : FS) (ops : List ScanOp) (sctx0 : SearchContext) (p : String) (i j : Nat),
        (p, i) ∈ scanCreations fs ops sctx0 → (p, j) ∈ scanCreations fs ops sctx0 → i = j)
    ∧ (∀ (fs : FS) (finfo : FileInfo) (fields : List (GameField × String))
          (platform : Platform) (emus : List (String × Emulator))
          (sctx : SearchContext) (childs : List Nat) (gid : Nat),
        alookup sctx.path_to_gameid (fs.canon finfo.resolved) = some gid →
        store_game fs finfo fields platform emus sctx childs
          = ⟨gid, sctx, childs ++ [gid], 0⟩)
    ∧ (∀ (fs : FS) (finfo : FileInfo) (fields : List (GameField × String))
          (platform : Platform) (emus : List (String × Emulator))
          (sctx : SearchContext) (childs : List Nat),
        alookup sctx.path_to_gameid (fs.canon finfo.resolved) = none →
        (store_game fs finfo fields platform emus sctx childs).gid = sctx.games.length
        ∧ alookup (store_game fs finfo fields platform emus sctx childs).sctx.path_to_gameid
            (fs.canon finfo.resolved) = some sctx.games.length)
    ∧ (∀ (fs : FS) (lb_dir : String) (values : List (AdditionalAppField × String))
          (gmap : List (String × Nat)) (sctx : SearchContext),
        (store_addiapp fs lb_dir values gmap sctx).1.games.length = sctx.games.length)
    ∧ (∀ (fs : FS) (lb_dir : String) (values : List (AdditionalAppField × String))
          (gmap : List (String × Nat)) (sctx : SearchContext) (p : String) (i : Nat),
        alookup sctx.path_to_gameid p = some i →
        alookup (store_addiapp fs lb_dir values gmap sctx).1.path_to_gameid p = some i) := by
  refine ⟨?_, ?_, ?_, store_addiapp_games_length, store_addiapp_path_mono⟩
  · intro fs ops sctx0 p i j hi hj
    have hreg := scanCreations_registered fs ops sctx0 []
      (by intro p i h; simp at h)
    have h1 := hreg p i (by simpa using hi)
    have h2 := hreg p j (by simpa using hj)
    rw [h1] at h2
    exact Option.some.inj h2
  · intro fs finfo fields platform emus sctx childs gid h
    unfold store_game
    simp [h]
  · intro fs finfo fields platform emus sctx childs h
    unfold store_game
    simp only [h]
    constructor
    · trivial
    · simp [alookup]

/-- Witness for the amended C1 theorem: a trace containing two entries
with the canonical path `p` creates only one record for it. -/
theorem lbx_c1_dedup_invariant_witness :
    scanCreations fsAll (opsFix ++ [.sgame ⟨"p"⟩ [] platFix emusFix "NES"]) {}
        = [("p", 0), ("q", 1)]
    ∧ (0 : Nat) = 0 := by
  refine ⟨by decide, ?_⟩
  exact lbx_c1_dedup_invariant.1 fsAll (opsFix ++ [.sgame ⟨"p"⟩ [] platFix emusFix "NES"]) {}
    "p" 0 0 (by decide) (by decide)

/-! ## Registry pruning (C6) -/

theorem remove_platforms_char (emus : List (String × Emulator)) :
    ∀ platforms : List Platform,
      remove_platforms_without_emulator emus platforms
        = (platforms.filter (fun pl => (alookup emus pl.default_emu_id).isSome),
           (platforms.filter (fun pl => (alookup emus pl.default_emu_id).isNone)).length) := by
  intro platforms
  induction platforms with
  | nil => rfl
  | cons p rest ih =>
      cases h : alookup emus p.default_emu_id with
      | none =>
          simp [remove_platforms_without_emulator, ih, h, List.filter_cons]
      | some e =>
          simp [remove_platforms_without_emulator, ih, h, List.filter_cons]

/-- Claim C6 (confirmed): after the registry parse completes, every
platform in the returned list has a default-emulator reference present
in the returned emulator map; the returned platforms are exactly the
parsed ones whose reference resolves, and one diagnostic is emitted per
removed platform. -/
theorem lbx_c6_referential_pruning (fs : FS) (lb_dir : String)
    (entries : List RegistryEntry) :
    (∀ pl ∈ (read_emulators_xml fs lb_dir entries).1.platforms,
        (alookup (read_emulators_xml fs lb_dir entries).1.emus pl.default_emu_id).isSome = true)
    ∧ (read_emulators_xml fs lb_dir entries).1.platforms
        = (entries.foldl (parse_registry_step fs lb_dir) {}).platforms.filter
            (fun pl => (alookup (entries.foldl (parse_registry_step fs lb_dir) {}).emus
                pl.default_emu_id).isSome)
    ∧ (read_emulators_xml fs lb_dir entries).2
        = ((entries.foldl (parse_registry_step fs lb_dir) {}).platforms.filter
            (fun pl => (alookup (entries.foldl (parse_registry_step fs lb_dir) {}).emus
                pl.default_emu_id).isNone)).length := by
  have hemus : (read_emulators_xml fs lb_dir entries).1.emus
      = (entries.foldl (parse_registry_step fs lb_dir) {}).emus := by
    simp only [read_emulators_xml, remove_platforms_char]
  have hplat : (read_emulators_xml fs lb_dir entries).1.platforms
      = (entries.foldl (parse_registry_step fs lb_dir) {}).platforms.filter
          (fun pl => (alookup (entries.foldl (parse_registry_step fs lb_dir) {}).emus
              pl.default_emu_id).isSome) := by
    simp only [read_emulators_xml, remove_platforms_char]
  have hdiag : (read_emulators_xml fs lb_dir entries).2
      = ((entries.foldl (parse_registry_step fs lb_dir) {}).platforms.filter
          (fun pl => (alookup (entries.foldl (parse_registry_step fs lb_dir) {}).emus
              pl.default_emu_id).isNone)).length := by
    simp only [read_emulators_xml, remove_platforms_char]
  refine ⟨?_, hplat, hdiag⟩
  intro pl hm
  rw [hplat] at hm
  rw [hemus]
  exact (List.mem_filter.mp hm).2

/-- Witness for the C6 theorem: in the concrete registry, the platform
referencing the missing emulator id `ghost` is pruned with one
diagnostic, and the surviving platform's reference resolves. -/
theorem lbx_c6_referential_pruning_witness :
    (read_emulators_xml fsAll "LB/" regEntriesFix).2 = 1
    ∧ (read_emulators_xml fsAll "LB/" regEntriesFix).1.platforms
        = [{ default_emu_id := "e", name := "NES", cmd_params := "",
             xml_path := "LB/Data/Platforms/NES.xml" }]
    ∧ (alookup (read_emulators_xml fsAll "LB/" regEntriesFix).1.emus "e").isSome = true := by
  refine ⟨by decide, by decide, ?_⟩
  exact (lbx_c6_referential_pruning fsAll "LB/" regEntriesFix).1
    { default_emu_id := "e", name := "NES", cmd_params := "",
      xml_path := "LB/Data/Platforms/NES.xml" } (by decide)

/-! ## Platform catalog file structure (C7, C8) -/

theorem read_game_rejected (fs : FS) (lb_dir : String)
    (values : List (GameField × String)) (platform : Platform)
    (emus : List (String × Emulator)) (sctx : SearchContext)
    (childs : List Nat) (gmap : List (String × Nat))
    (h : game_entry_rejected fs lb_dir values) :
    platform_xml_read_game fs lb_dir values platform emus sctx childs gmap
      = ⟨sctx, childs, gmap, 1⟩ := by
  unfold platform_xml_read_game
  rcases h with h | h | ⟨pathv, hp, hex⟩
  · simp [h]
  · cases hid : alookup values GameField.ID with
    | none => simp [hid]
    | some idv => simp [hid, h]
  · cases hid : alookup values GameField.ID with
    | none => simp [hid]
    | some idv => simp [hid, hp, hex]

theorem gameEntriesOf_cons_game (fields : List (GameField × String)) (rest : List XmlEntry) :
    gameEntriesOf (XmlEntry.game fields :: rest) = fields :: gameEntriesOf rest := rfl

theorem gameEntriesOf_cons_addiapp (values : List (AdditionalAppField × String))
    (rest : List XmlEntry) :
    gameEntriesOf (XmlEntry.addiapp values :: rest) = gameEntriesOf rest := rfl

theorem gameEntriesOf_cons_other (rest : List XmlEntry) :
    gameEntriesOf (XmlEntry.other :: rest) = gameEntriesOf rest := rfl

theorem addiappValuesOf_cons_game (fields : List (GameField × String)) (rest : List XmlEntry) :
    addiappValuesOf (XmlEntry.game fields :: rest) = addiappValuesOf rest := rfl

theorem addiappValuesOf_cons_addiapp (values : List (AdditionalAppField × String))
    (rest : List XmlEntry) :
    addiappValuesOf (XmlEntry.addiapp values :: rest) = values :: addiappValuesOf rest := rfl

theorem addiappValuesOf_cons_other (rest : List XmlEntry) :
    addiappValuesOf (XmlEntry.other :: rest) = addiappValuesOf rest := rfl

theorem read_root_fold_split (fs : FS) (lb_dir : String) (platform : Platform)
    (emus : List (String × Emulator)) :
    ∀ (entries : List XmlEntry) (s : SearchContext) (c : List Nat)
      (g : List (String × Nat)) (as : List (List (AdditionalAppField × String))) (d : Nat),
      entries.foldl (read_root_step fs lb_dir platform emus) ⟨s, c, g, as, d⟩
        = ⟨((gameEntriesOf entries).foldl (gamePassStep fs lb_dir platform emus) ⟨s, c, g, d⟩).sctx,
           ((gameEntriesOf entries).foldl (gamePassStep fs lb_dir platform emus) ⟨s, c, g, d⟩).childs,
           ((gameEntriesOf entries).foldl (gamePassStep fs lb_dir platform emus) ⟨s, c, g, d⟩).gmap,
           as ++ addiappValuesOf entries,
           ((gameEntriesOf entries).foldl (gamePassStep fs lb_dir platform emus) ⟨s, c, g, d⟩).diags⟩ := by
  intro entries
  induction entries with
  | nil =>
      intro s c g as d
      simp [gameEntriesOf, addiappValuesOf]
  | cons e rest ih =>
      intro s c g as d
      cases e with
      | game fields =>
          rw [gameEntriesOf_cons_game, addiappValuesOf_cons_game,
              List.foldl_cons, List.foldl_cons]
          rw [show read_root_step fs lb_dir platform emus ⟨s, c, g, as, d⟩ (.game fields)
              = ⟨(gamePassStep fs lb_dir platform emus ⟨s, c, g, d⟩ fields).sctx,
                 (gamePassStep fs lb_dir platform emus ⟨s, c, g, d⟩ fields).childs,
                 (gamePassStep fs lb_dir platform emus ⟨s, c, g, d⟩ fields).gmap,
                 as,
                 (gamePassStep fs lb_dir platform emus ⟨s, c, g, d⟩ fields).diags⟩ from rfl]
          rw [show gamePassStep fs lb_dir platform emus ⟨s, c, g, d⟩ fields
              = ⟨(gamePassStep fs lb_dir platform emus ⟨s, c, g, d⟩ fields).sctx,
                 (gamePassStep fs lb_dir platform emus ⟨s, c, g, d⟩ fields).childs,
                 (gamePassStep fs lb_dir platform emus ⟨s, c, g, d⟩ fields).gmap,
                 (gamePassStep fs lb_dir platform emus ⟨s, c, g, d⟩ fields).diags⟩ from rfl]
          exact ih _ _ _ _ _
      | addiapp values =>
          rw [gameEntriesOf_cons_addiapp, addiappValuesOf_cons_addiapp, List.foldl_cons]
          rw [show read_root_step fs lb_dir platform emus ⟨s, c, g, as, d⟩ (.addiapp values)
              = ⟨s, c, g, as ++ [values], d⟩ from rfl]
          rw [ih]
          simp only [List.append_assoc, List.singleton_append]
      | other =>
          rw [gameEntriesOf_cons_other, addiappValuesOf_cons_other, List.foldl_cons]
          rw [show read_root_step fs lb_dir platform emus ⟨s, c, g, as, d⟩ .other
              = ⟨s, c, g, as, d⟩ from rfl]
          exact ih _ _ _ _ _

theorem read_root_eq_two_pass (fs : FS) (lb_dir : String) (platform : Platform)
    (emus : List (String × Emulator)) (entries : List XmlEntry) (sctx : SearchContext) :
    platform_xml_read_root fs lb_dir platform emus entries sctx
      = read_root_two_pass fs lb_dir platform emus entries sctx := by
  simp only [platform_xml_read_root, read_root_two_pass]
  rw [read_root_fold_split]
  simp

theorem gamePass_diag_shift (fs : FS) (lb_dir : String) (platform : Platform)
    (emus : List (String × Emulator)) :
    ∀ (l : List (List (GameField × String))) (s : SearchContext) (c : List Nat)
      (g : List (String × Nat)) (d n : Nat),
      l.foldl (gamePassStep fs lb_dir platform emus) ⟨s, c, g, d + n⟩
        = ⟨(l.foldl (gamePassStep fs lb_dir platform emus) ⟨s, c, g, d⟩).sctx,
           (l.foldl (gamePassStep fs lb_dir platform emus) ⟨s, c, g, d⟩).childs,
           (l.foldl (gamePassStep fs lb_dir platform emus) ⟨s, c, g, d⟩).gmap,
           (l.foldl (gamePassStep fs lb_dir platform emus) ⟨s, c, g, d⟩).diags + n⟩ := by
  intro l
  induction l with
  | nil => intro s c g d n; rfl
  | cons fields rest ih =>
      intro s c g d n
      simp only [List.foldl_cons]
      have hstep : gamePassStep fs lb_dir platform emus ⟨s, c, g, d + n⟩ fields
          = ⟨(gamePassStep fs lb_dir platform emus ⟨s, c, g, d⟩ fields).sctx,
             (gamePassStep fs lb_dir platform emus ⟨s, c, g, d⟩ fields).childs,
             (gamePassStep fs lb_dir platform emus ⟨s, c, g, d⟩ fields).gmap,
             (gamePassStep fs lb_dir platform emus ⟨s, c, g, d⟩ fields).diags + n⟩ := by
        simp only [gamePassStep]
        have harith : d + n + (platform_xml_read_game fs lb_dir fields platform emus s c g).diags
            = d + (platform_xml_read_game fs lb_dir fields platform emus s c g).diags + n := by
          omega
        rw [harith]
      rw [hstep]
      exact ih _ _ _ _ _

theorem addiPass_diag_shift (fs : FS) (lb_dir : String) (gmap : List (String × Nat)) :
    ∀ (vs : List (List (AdditionalAppField × String))) (s : SearchContext) (d n : Nat),
      vs.foldl (fun (acc : SearchContext × Nat) values =>
          let r := store_addiapp fs lb_dir values gmap acc.1
          (r.1, acc.2 + r.2)) (s, d + n)
        = ((vs.foldl (fun (acc : SearchContext × Nat) values =>
              let r := store_addiapp fs lb_dir values gmap acc.1
              (r.1, acc.2 + r.2)) (s, d)).1,
           (vs.foldl (fun (acc : SearchContext × Nat) values =>
              let r := store_addiapp fs lb_dir values gmap acc.1
              (r.1, acc.2 + r.2)) (s, d)).2 + n) := by
  intro vs
  induction vs with
  | nil => intro s d n; rfl
  | cons v rest ih =>
      intro s d n
      simp only [List.foldl_cons]
      have hstep : d + n + (store_addiapp fs lb_dir v gmap s).2
          = d + (store_addiapp fs lb_dir v gmap s).2 + n := by omega
      show List.foldl _ ((store_addiapp fs lb_dir v gmap s).1, d + n + (store_addiapp fs lb_dir v gmap s).2) rest = _
      rw [hstep]
      exact ih _ _ _

theorem gamePass_skip_rejected (fs : FS) (lb_dir : String) (platform : Platform)
    (emus : List (String × Emulator)) (A B : List (List (GameField × String)))
    (values : List (GameField × String)) (init : ReadGameResult)
    (h : game_entry_rejected fs lb_dir values) :
    (A ++ values :: B).foldl (gamePassStep fs lb_dir platform emus) init
      = ⟨((A ++ B).foldl (gamePassStep fs lb_dir platform emus) init).sctx,
         ((A ++ B).foldl (gamePassStep fs lb_dir platform emus) init).childs,
         ((A ++ B).foldl (gamePassStep fs lb_dir platform emus) init).gmap,
         ((A ++ B).foldl (gamePassStep fs lb_dir platform emus) init).diags + 1⟩ := by
  rw [List.foldl_append, List.foldl_cons, List.foldl_append]
  have hstep : ∀ st : ReadGameResult, gamePassStep fs lb_dir platform emus st values
      = ⟨st.sctx, st.childs, st.gmap, st.diags + 1⟩ := by
    intro st
    simp only [gamePassStep,
      read_game_rejected fs lb_dir values platform emus st.sctx st.childs st.gmap h]
  rw [hstep]
  have heta : A.foldl (gamePassStep fs lb_dir platform emus) init
      = ⟨(A.foldl (gamePassStep fs lb_dir platform emus) init).sctx,
         (A.foldl (gamePassStep fs lb_dir platform emus) init).childs,
         (A.foldl (gamePassStep fs lb_dir platform emus) init).gmap,
         (A.foldl (gamePassStep fs lb_dir platform emus) init).diags⟩ := rfl
  rw [show (A.foldl (gamePassStep fs lb_dir platform emus) init).diags + 1
      = (A.foldl (gamePassStep fs lb_dir platform emus) init).diags + 1 from rfl]
  calc B.foldl (gamePassStep fs lb_dir platform emus)
        ⟨(A.foldl (gamePassStep fs lb_dir platform emus) init).sctx,
         (A.foldl (gamePassStep fs lb_dir platform emus) init).childs,
         (A.foldl (gamePassStep fs lb_dir platform emus) init).gmap,
         (A.foldl (gamePassStep fs lb_dir platform emus) init).diags + 1⟩
      = ⟨(B.foldl (gamePassStep fs lb_dir platform emus)
            (A.foldl (gamePassStep fs lb_dir platform emus) init)).sctx,
         (B.foldl (gamePassStep fs lb_dir platform emus)
            (A.foldl (gamePassStep fs lb_dir platform emus) init)).childs,
         (B.foldl (gamePassStep fs lb_dir platform emus)
            (A.foldl (gamePassStep fs lb_dir platform emus) init)).gmap,
         (B.foldl (gamePassStep fs lb_dir platform emus)
            (A.foldl (gamePassStep fs lb_dir platform emus) init)).diags + 1⟩ := by
        rw [heta]
        exact gamePass_diag_shift fs lb_dir platform emus B _ _ _ _ 1

theorem read_root_skip_rejected (fs : FS) (lb_dir : String) (platform : Platform)
    (emus : List (String × Emulator)) (pre post : List XmlEntry)
    (values : List (GameField × String)) (sctx : SearchContext)
    (h : game_entry_rejected fs lb_dir values) :
    platform_xml_read_root fs lb_dir platform emus (pre ++ XmlEntry.game values :: post) sctx
      = ((platform_xml_read_root fs lb_dir platform emus (pre ++ post) sctx).1,
         (platform_xml_read_root fs lb_dir platform emus (pre ++ post) sctx).2 + 1) := by
  rw [read_root_eq_two_pass, read_root_eq_two_pass]
  have hge : gameEntriesOf (pre ++ XmlEntry.game values :: post)
      = gameEntriesOf pre ++ values :: gameEntriesOf post := by
    simp [gameEntriesOf, List.filterMap_append, List.filterMap_cons]
  have hav : addiappValuesOf (pre ++ XmlEntry.game values :: post)
      = addiappValuesOf (pre ++ post) := by
    simp [addiappValuesOf, List.filterMap_append, List.filterMap_cons]
  have hge2 : gameEntriesOf (pre ++ post) = gameEntriesOf pre ++ gameEntriesOf post := by
    simp [gameEntriesOf, List.filterMap_append]
  simp only [read_root_two_pass]
  rw [hge, hav, hge2]
  rw [gamePass_skip_rejected fs lb_dir platform emus (gameEntriesOf pre) (gameEntriesOf post)
      values _ h]
  rw [addiPass_diag_shift]

theorem store_addiapp_rejected (fs : FS) (lb_dir : String)
    (values : List (AdditionalAppField × String)) (gmap : List (String × Nat))
    (sctx : SearchContext) (h : addiapp_entry_rejected fs lb_dir values gmap) :
    store_addiapp fs lb_dir values gmap sctx = (sctx, 1) := by
  rcases h with h | h | ⟨g, hg, hgm⟩ | h | ⟨pathv, hp, hex⟩
  · simp [store_addiapp, h]
  · cases hid : alookup values AdditionalAppField.ID with
    | none => simp [store_addiapp, hid]
    | some idv => simp [store_addiapp, hid, h]
  · cases hid : alookup values AdditionalAppField.ID with
    | none => simp [store_addiapp, hid]
    | some idv => simp [store_addiapp, hid, hg, hgm]
  · cases hid : alookup values AdditionalAppField.ID with
    | none => simp [store_addiapp, hid]
    | some idv =>
        cases hgid : alookup values AdditionalAppField.GAME_ID with
        | none => simp [store_addiapp, hid, hgid]
        | some g =>
            cases hgm : alookup gmap g with
            | none => simp [store_addiapp, hid, hgid, hgm]
            | some gameid => simp [store_addiapp, hid, hgid, hgm, h]
  · cases hid : alookup values AdditionalAppField.ID with
    | none => simp [store_addiapp, hid]
    | some idv =>
        cases hgid : alookup values AdditionalAppField.GAME_ID with
        | none => simp [store_addiapp, hid, hgid]
        | some g =>
            cases hgm : alookup gmap g with
            | none => simp [store_addiapp, hid, hgid, hgm]
            | some gameid => simp [store_addiapp, hid, hgid, hgm, hp, hex]

/-- Claim C7 (confirmed): a Game element whose collected field map lacks
an ID or Path, or whose resolved game file does not exist, is skipped
with exactly one diagnostic and leaves the context, the collection
member list and the file-local id map unchanged; removing such an entry
from a platform file changes nothing but the diagnostic count. -/
theorem lbx_c7_game_entry_skip :
    (∀ (fs : FS) (lb_dir : String) (values : List (GameField × String))
        (platform : Platform) (emus : List (String × Emulator)) (sctx : SearchContext)
        (childs : List Nat) (gmap : List (String × Nat)),
        game_entry_rejected fs lb_dir values →
        platform_xml_read_game fs lb_dir values platform emus sctx childs gmap
          = ⟨sctx, childs, gmap, 1⟩)
    ∧ (∀ (fs : FS) (lb_dir : String) (platform : Platform)
        (emus : List (String × Emulator)) (pre post : List XmlEntry)
        (values : List (GameField × String)) (sctx : SearchContext),
        game_entry_rejected fs lb_dir values →
        platform_xml_read_root fs lb_dir platform emus (pre ++ XmlEntry.game values :: post) sctx
          = ((platform_xml_read_root fs lb_dir platform emus (pre ++ post) sctx).1,
             (platform_xml_read_root fs lb_dir platform emus (pre ++ post) sctx).2 + 1)) := by
  constructor
  · intro fs lb_dir values platform emus sctx childs gmap h
    exact read_game_rejected fs lb_dir values platform emus sctx childs gmap h
  · intro fs lb_dir platform emus pre post values sctx h
    exact read_root_skip_rejected fs lb_dir platform emus pre post values sctx h

/-- Witness for the C7 theorem: an empty field map (no ID) is rejected;
with a sibling game in the same file, the file parses to the same state
with one extra diagnostic. -/
theorem lbx_c7_game_entry_skip_witness :
    game_entry_rejected fsAll "" []
    ∧ platform_xml_read_game fsAll "" [] platFix emusFix {} [] [] = ⟨{}, [], [], 1⟩
    ∧ platform_xml_read_root fsAll "" platFix emusFix
        ([] ++ XmlEntry.game [] :: [XmlEntry.game gameEntryFix]) {}
        = ((platform_xml_read_root fsAll "" platFix emusFix
              ([] ++ [XmlEntry.game gameEntryFix]) {}).1,
           (platform_xml_read_root fsAll "" platFix emusFix
              ([] ++ [XmlEntry.game gameEntryFix]) {}).2 + 1) := by
  have hrej : game_entry_rejected fsAll "" [] := Or.inl rfl
  exact ⟨hrej,
    lbx_c7_game_entry_skip.1 fsAll "" [] platFix emusFix {} [] [] hrej,
    lbx_c7_game_entry_skip.2 fsAll "" platFix emusFix [] [XmlEntry.game gameEntryFix] [] {} hrej⟩

/-- Claim C8 (confirmed): a platform file is processed as two passes —
additional applications are resolved only after all Game elements of the
file, against the complete file-local id map, so forward references
resolve (in the concrete file the AdditionalApplication precedes the
Game it references and still attaches its file); an entry missing ID,
GameID or Path, referencing an unknown game id, or pointing at a
nonexistent file is skipped with one diagnostic and leaves the context
(games and dedup index) unchanged. -/
theorem lbx_c8_addiapp_after_games :
    (∀ (fs : FS) (lb_dir : String) (platform : Platform)
        (emus : List (String × Emulator)) (entries : List XmlEntry) (sctx : SearchContext),
        platform_xml_read_root fs lb_dir platform emus entries sctx
          = read_root_two_pass fs lb_dir platform emus entries sctx)
    ∧ (∀ (fs : FS) (lb_dir : String) (values : List (AdditionalAppField × String))
        (gmap : List (String × Nat)) (sctx : SearchContext),
        addiapp_entry_rejected fs lb_dir values gmap →
        store_addiapp fs lb_dir values gmap sctx = (sctx, 1))
    ∧ (platform_xml_read_root fsAll "" platFix emusFix entriesFix {}).2 = 0
    ∧ (agetD (platform_xml_read_root fsAll "" platFix emusFix entriesFix {}).1.games 0 {}).files
        = [{ path := "g" }, { path := "extra" }] := by
  refine ⟨read_root_eq_two_pass, ?_, by decide, by decide⟩
  intro fs lb_dir values gmap sctx h
  exact store_addiapp_rejected fs lb_dir values gmap sctx h

/-- Witness for the C8 theorem: the two-pass equality at the concrete
file, and the rejection of an additional application with no fields. -/
theorem lbx_c8_addiapp_after_games_witness :
    platform_xml_read_root fsAll "" platFix emusFix entriesFix {}
        = read_root_two_pass fsAll "" platFix emusFix entriesFix {}
    ∧ addiapp_entry_rejected fsAll "" [] [("G1", 0)]
    ∧ store_addiapp fsAll "" [] [("G1", 0)] {} = ({}, 1) := by
  have hrej : addiapp_entry_rejected fsAll "" [] [("G1", 0)] := Or.inl rfl
  exact ⟨lbx_c8_addiapp_after_games.1 fsAll "" platFix emusFix entriesFix {},
    hrej,
    (lbx_c8_addiapp_after_games.2.1) fsAll "" [] [("G1", 0)] {} hrej⟩

/-! ## Asset matching (C4, C5) -/

theorem string_data_append (s t : String) : (s ++ t).data = s.data ++ t.data := rfl

theorem string_mk_data (s : String) : String.mk s.data = s := rfl

theorem string_length_eq (s : String) : s.length = s.data.length := rfl

theorem imageLookupKey_strips (s tag : String) (h : tag.length = 3) :
    imageLookupKey true (s ++ tag) = s := by
  unfold imageLookupKey qleft
  have hlen : (s ++ tag).length = s.length + 3 := by
    rw [string_length_eq, string_data_append, List.length_append,
        ← string_length_eq, ← string_length_eq, h]
  have hcond : ¬(((s ++ tag).length : Int) - 3 < 0
      ∨ ((s ++ tag).length : Int) ≤ ((s ++ tag).length : Int) - 3) := by
    rw [hlen]
    push_cast
    omega
  rw [if_neg hcond]
  have htonat : (((s ++ tag).length : Int) - 3).toNat = s.length := by
    rw [hlen]
    push_cast
    omega
  rw [htonat, string_data_append, string_length_eq, List.take_left]
  exact string_mk_data s

theorem imageLookupKey_short (b : String) (h : b.length < 3) :
    imageLookupKey true b = b := by
  unfold imageLookupKey qleft
  rw [if_pos (Or.inl (by omega : ((b.length : Int) - 3 < 0)))]
  simp

theorem imageLookupKey_music (b : String) : imageLookupKey false b = b := rfl

theorem find_assets_in_cons_miss (f : FileEntry) (files : List FileEntry)
    (t : AssetType) (suffix : Bool) (map : List (String × Nat)) (games : List (Nat × Game))
    (h : alookup map (imageLookupKey suffix f.basename) = none) :
    find_assets_in (f :: files) t suffix map games
      = find_assets_in files t suffix map games := by
  unfold find_assets_in
  simp only [List.foldl_cons, h]

theorem find_assets_in_cons_hit (f : FileEntry) (files : List FileEntry)
    (t : AssetType) (suffix : Bool) (map : List (String × Nat)) (games : List (Nat × Game))
    (gid : Nat) (h : alookup map (imageLookupKey suffix f.basename) = some gid) :
    find_assets_in (f :: files) t suffix map games
      = find_assets_in files t suffix map
          (aupdate games gid (fun g => { g with assets := addFileMaybe g.assets t f.filepath })) := by
  unfold find_assets_in
  simp only [List.foldl_cons, h]

/-- Claim C4 (counterexample): an image-category file whose base name
carries no `-NN` tag is not looked up with only its extension stripped —
the last three characters are removed regardless, so `Mario` is looked
up as `Ma` and fails to match a game titled `Mario`, while the
claimed extension-only lookup would have matched and attached the
file. -/
theorem lbx_c4_suffix_strip_cex :
    imageLookupKey true "Mario" = "Ma"
    ∧ "Ma" ≠ "Mario"
    ∧ find_assets_in [⟨"Mario", "p"⟩] .BOX_FRONT true [("Mario", 0)] [(0, { title := "Mario" })]
        = [(0, { title := "Mario" })]
    ∧ find_assets_in [⟨"Mario", "p"⟩] .BOX_FRONT false [("Mario", 0)] [(0, { title := "Mario" })]
        = [(0, { title := "Mario", assets := [(.BOX_FRONT, "p")] })] := by decide

/-- Claim C4 (amended): for image-category directories the matcher
always removes the last three characters of the extension-stripped base
name (the position of a `-NN` tag) before the escaped-title lookup,
whether or not such a tag is present (a base name shorter than three
characters is looked up whole); a file whose stripped key misses the
index is skipped; music files are always looked up with no suffix
stripped — concretely, `Mario-01` in a box-front directory and `Mario`
in the music directory both attach to the game titled `Mario`. -/
theorem lbx_c4_suffix_strip_amended :
    (∀ s tag : String, tag.length = 3 → imageLookupKey true (s ++ tag) = s)
    ∧ (∀ b : String, b.length < 3 → imageLookupKey true b = b)
    ∧ (∀ b : String, imageLookupKey false b = b)
    ∧ (∀ (f : FileEntry) (files : List FileEntry) (t : AssetType)
          (map : List (String × Nat)) (games : List (Nat × Game)),
        alookup map (imageLookupKey true f.basename) = none →
        find_assets_in (f :: files) t true map games = find_assets_in files t true map games)
    ∧ (agetD (find_assets "LB/" platFix assetdir_map filesInFix sctxAssets).games 0 {}).assets
        = [(.BOX_FRONT, "img"), (.MUSIC, "mus")] := by
  refine ⟨imageLookupKey_strips, imageLookupKey_short, imageLookupKey_music, ?_, by decide⟩
  intro f files t map games h
  exact find_assets_in_cons_miss f files t true map games h

/-- Witness for the amended C4 theorem: stripping the `-01` tag from
`Mario-01` yields `Mario`, and a tagless name misses the index. -/
theorem lbx_c4_suffix_strip_amended_witness :
    ("-01" : String).length = 3
    ∧ imageLookupKey true ("Mario" ++ "-01") = "Mario"
    ∧ alookup [("Mario", 0)] (imageLookupKey true "Mario") = none
    ∧ find_assets_in [⟨"Mario", "p"⟩] .BOX_FRONT true [("Mario", 0)] [(0, { title := "Mario" })]
        = find_assets_in [] .BOX_FRONT true [("Mario", 0)] [(0, { title := "Mario" })] := by
  refine ⟨by decide, lbx_c4_suffix_strip_amended.1 "Mario" "-01" (by decide), by decide, ?_⟩
  exact lbx_c4_suffix_strip_amended.2.2.2.1 ⟨"Mario", "p"⟩ [] .BOX_FRONT [("Mario", 0)]
    [(0, { title := "Mario" })] (by decide)

theorem find_videos_in_cons_hit (f : FileEntry) (files : List FileEntry)
    (map : List (String × Nat)) (games : List (Nat × Game)) (gid : Nat)
    (h : alookup map (videoGameTitle f.basename) = some gid) :
    find_videos_in (f :: files) map games
      = find_videos_in files map
          (aupdate games gid
            (fun g => { g with assets := addFileMaybe g.assets .VIDEOS f.filepath })) := by
  unfold find_videos_in
  simp only [List.foldl_cons, h]

theorem find_videos_in_cons_miss (f : FileEntry) (files : List FileEntry)
    (map : List (String × Nat)) (games : List (Nat × Game))
    (h1 : alookup map (videoGameTitle f.basename) = none)
    (h2 : alookup map (videoFallbackTitle (videoGameTitle f.basename)) = none) :
    find_videos_in (f :: files) map games = find_videos_in files map games := by
  unfold find_videos_in
  simp only [List.foldl_cons, h1, h2]

/-- Claim C5 (confirmed): video matching strips a trailing
parenthetical, trims, and looks the title up exactly; on a miss it
applies the dash-to-colon and `, The`-fronting transforms and retries
once; on a second miss the file is skipped silently.  In particular
`Metroid Prime, The (USA).mp4` fails the direct lookup and matches the
game titled `The Metroid Prime` through the transform, receiving the
video asset. -/
theorem lbx_c5_video_heuristic :
    (videoGameTitle "Metroid Prime, The (USA)" = "Metroid Prime, The"
     ∧ alookup vmapFix "Metroid Prime, The" = none
     ∧ videoFallbackTitle "Metroid Prime, The" = "The Metroid Prime"
     ∧ (agetD (find_videos_in [⟨"Metroid Prime, The (USA)", "vid"⟩] vmapFix gamesVFix) 5 {}).assets
         = [(.VIDEOS, "vid")])
    ∧ (∀ (f : FileEntry) (files : List FileEntry) (map : List (String × Nat))
          (games : List (Nat × Game)) (gid : Nat),
        alookup map (videoGameTitle f.basename) = some gid →
        find_videos_in (f :: files) map games
          = find_videos_in files map
              (aupdate games gid
                (fun g => { g with assets := addFileMaybe g.assets .VIDEOS f.filepath })))
    ∧ (∀ (f : FileEntry) (files : List FileEntry) (map : List (String × Nat))
          (games : List (Nat × Game)),
        alookup map (videoGameTitle f.basename) = none →
        alookup map (videoFallbackTitle (videoGameTitle f.basename)) = none →
        find_videos_in (f :: files) map games = find_videos_in files map games) := by
  refine ⟨⟨by decide, by decide, by decide, by decide⟩, ?_, ?_⟩
  · intro f files map games gid h
    exact find_videos_in_cons_hit f files map games gid h
  · intro f files map games h1 h2
    exact find_videos_in_cons_miss f files map games h1 h2

/-- Witness for the C5 theorem: a direct hit attaches the video, and a
file missing both lookups is skipped. -/
theorem lbx_c5_video_heuristic_witness :
    alookup vmapFix (videoGameTitle "The Metroid Prime") = some 5
    ∧ find_videos_in [⟨"The Metroid Prime", "v2"⟩] vmapFix gamesVFix
        = find_videos_in [] vmapFix
            (aupdate gamesVFix 5
              (fun g => { g with assets := addFileMaybe g.assets .VIDEOS "v2" }))
    ∧ alookup vmapFix (videoGameTitle "Unknown") = none
    ∧ find_videos_in [⟨"Unknown", "v3"⟩] vmapFix gamesVFix
        = find_videos_in [] vmapFix gamesVFix := by
  refine ⟨by decide, ?_, by decide, ?_⟩
  · exact lbx_c5_video_heuristic.2.1 ⟨"The Metroid Prime", "v2"⟩ [] vmapFix gamesVFix 5 (by decide)
  · exact lbx_c5_video_heuristic.2.2 ⟨"Unknown", "v3"⟩ [] vmapFix gamesVFix (by decide) (by decide)
